import Mathlib

/-!
Shallow embedding of `private/python/analyzeRunReports.py`.

The program ingests XML "GATK run report" records, filters them
(`passesFilters`), normalizes them (`RecordDecoder.decode`), and feeds them to
one of several sinks (table, exception digest, summary, SQL insert).  Python
values are embedded as follows: XML elements become the inductive `Elt`
(tag, optional text, children); Python `None` becomes `Option.none`; code that
can raise returns `Except String`; Python dicts keyed by strings become
association lists; Python sets become duplicate-free lists built with
`setAdd`.
-/

namespace RunReports

/-- The Python module-level constant `MISSING_VALUE = "NA"`. -/
def MISSING_VALUE : String := "NA"

/-- The Python module-level constant `RUN_STATUS_SUCCESS = "success"`. -/
def RUN_STATUS_SUCCESS : String := "success"

/-- An XML element as produced by `xml.etree.cElementTree`: a tag, optional
text content, and a list of child elements. -/
inductive Elt where
  | mk (tag : String) (text : Option String) (children : List Elt)

/-- The element's tag. -/
def Elt.tag : Elt → String
  | .mk t _ _ => t

/-- The element's text (`None` when absent). -/
def Elt.text : Elt → Option String
  | .mk _ x _ => x

/-- The element's direct children (Python `for sub in elt` iterates these). -/
def Elt.children : Elt → List Elt
  | .mk _ _ c => c

/-- Method `elt.find(tag)`: first direct child with the given tag, else `None`. -/
def Elt.find (e : Elt) (tag : String) : Option Elt :=
  e.children.find? (fun c => c.tag == tag)

/-- Method `elt.findall(tag)`: all direct children with the given tag, in order. -/
def Elt.findall (e : Elt) (tag : String) : List Elt :=
  e.children.filter (fun c => c.tag == tag)

/-- Python `str(x)` / `'%s' % x` on a value that is either a string or `None`. -/
def pyStr : Option String → String
  | none => "None"
  | some s => s

/-- Value of a nonempty digit string, most significant digit first. -/
def digitsNat (l : List Char) : Nat :=
  l.foldl (fun a c => a * 10 + (c.toNat - '0'.toNat)) 0

/-- Whitespace characters stripped by Python `int()` / `str.strip()`. -/
def isPySpace (c : Char) : Bool :=
  c = ' ' || c = '\t' || c = '\n' || c = '\r' || c = '\x0b' || c = '\x0c'

/-- Strip leading and trailing Python whitespace from a character list. -/
def stripWs (l : List Char) : List Char :=
  ((l.dropWhile isPySpace).reverse.dropWhile isPySpace).reverse

/-- Python `int(s)` on a string: strips whitespace, allows one sign, then
requires a nonempty run of digits; anything else raises `ValueError`.
In particular `int("")` raises. -/
def pyInt (s : String) : Except String Int :=
  let t := stripWs s.data
  let sm : Int × List Char :=
    match t with
    | [] => (1, [])
    | c :: rest => if c = '-' then (-1, rest) else if c = '+' then (1, rest) else (1, t)
  if sm.2.isEmpty then .error "ValueError"
  else if sm.2.all Char.isDigit then .ok (sm.1 * (digitsNat sm.2 : Int))
  else .error "ValueError"

/-- A character matched by the `re` class `\w` on a Python 2 `str`:
`[a-zA-Z0-9_]`. -/
def isWordChar (c : Char) : Bool :=
  c.isAlphanum || c = '_'

/-- Python `re`'s `$` anchor: matches at the end of the string or just before a
single trailing newline. -/
def matchEnd (l : List Char) : Bool :=
  l.isEmpty || l == ['\n']

/-- Regex `re.match("^1\.0\.(\d)(\d*)", text)`: anchored at the start only.  Returns
`(group 1, group 2)`: the first digit after `1.0.` and the (possibly empty)
greedy run of digits after it. -/
def svnMatch (l : List Char) : Option (Char × List Char) :=
  match l with
  | a :: b :: c :: e :: rest =>
    if a = '1' ∧ b = '.' ∧ c = '0' ∧ e = '.' then
      match rest with
      | d :: rest2 => if d.isDigit then some (d, rest2.takeWhile Char.isDigit) else none
      | [] => none
    else none
  | _ => none

/-- Regex `re.match("^(\d)\.(\d+)-(\d+)-\w*$", text)`: the full modern version form.
Returns `(group 1, group 2, group 3)` when the whole string matches. -/
def gitFullMatch (l : List Char) : Option (Char × List Char × List Char) :=
  match l with
  | a :: b :: rest =>
    if a.isDigit ∧ b = '.' then
      let ds1 := rest.takeWhile Char.isDigit
      let r1 := rest.dropWhile Char.isDigit
      if ds1.isEmpty then none
      else
        match r1 with
        | c :: r2 =>
          if c = '-' then
            let ds2 := r2.takeWhile Char.isDigit
            let r3 := r2.dropWhile Char.isDigit
            if ds2.isEmpty then none
            else
              match r3 with
              | e :: r4 =>
                if e = '-' then
                  if matchEnd (r4.dropWhile isWordChar) then some (a, ds1, ds2) else none
                else none
              | [] => none
          else none
        | [] => none
    else none
  | _ => none

/-- Regex `re.match("^(\d)\.(\d+)$", text)`: the bare modern version form. -/
def gitShortMatch (l : List Char) : Option (Char × List Char) :=
  match l with
  | a :: b :: rest =>
    if a.isDigit ∧ b = '.' then
      let ds1 := rest.takeWhile Char.isDigit
      let r1 := rest.dropWhile Char.isDigit
      if ds1.isEmpty then none
      else if matchEnd r1 then some (a, ds1) else none
    else none
  | _ => none

/-- Embeds `parseGATKVersion(text)`: tries the svn form, then the full git form, then
the short git form; defaults to `("unknown", "0")`; finally applies `int` to
the minor-version string (which raises on an empty string). -/
def parseGATKVersion (text : String) : Except String (String × Int) :=
  let mm : String × String :=
    match svnMatch text.data with
    | some (d, ds) => ("0." ++ String.mk [d], String.mk ds)
    | none =>
      match gitFullMatch text.data with
      | some (d, ds1, ds2) => (String.mk [d] ++ "." ++ String.mk ds1, String.mk ds2)
      | none =>
        match gitShortMatch text.data with
        | some (d, ds1) => (String.mk [d] ++ "." ++ String.mk ds1, "0")
        | none => ("unknown", "0")
  match pyInt mm.2 with
  | .ok m => .ok (mm.1, m)
  | .error e => .error e

/-- Python `'sep'.join(list)` where the list members came from `.text` fields and may
be `None`: joining raises `TypeError` on a `None` member. -/
def pyJoinTexts (sep : String) : List (Option String) → Except String String
  | [] => .ok ""
  | [none] => .error "TypeError"
  | [some s] => .ok s
  | none :: _ => .error "TypeError"
  | some s :: x :: rest => do
    let r ← pyJoinTexts sep (x :: rest)
    .ok (s ++ sep ++ r)

/-- Embeds `eltIsException(elt)`. -/
def eltIsException (elt : Elt) : Bool :=
  elt.tag == "exception"

/-- Embeds `parseException(elt)`: returns
`(msgText, stackTraceString, userException, runStatus)`.  `msgText` starts as
the string `"MISSING"` and is replaced by the message child's text (possibly
`None`) when that child exists; `stackTraceString` is the newline-join of the
stacktrace's `string` children (raising `TypeError` if one has `None` text) or
`"NA"`; `userException` is the `is-user-exception` child's text or `"NA"`;
`runStatus` is `"success"`, `"sting-exception"` once a message child exists, or
`"user-exception"` when the user flag's text equals `"true"`. -/
def parseException (elt : Elt) : Except String (Option String × String × Option String × String) :=
  let mr : Option String × String :=
    match elt.find "message" with
    | none => (some "MISSING", RUN_STATUS_SUCCESS)
    | some m => (m.text, "sting-exception")
  let sts : Except String String :=
    match elt.find "stacktrace" with
    | none => .ok "NA"
    | some st =>
      let strings := st.findall "string"
      if strings.length > 0 then pyJoinTexts "\n" (strings.map Elt.text) else .ok "NA"
  match sts with
  | .error e => .error e
  | .ok stackTraceString =>
    let ur : Option String × String :=
      match elt.find "is-user-exception" with
      | none => (some "NA", mr.2)
      | some u => (u.text, if u.text == some "true" then "user-exception" else mr.2)
    .ok (mr.1, stackTraceString, ur.1, ur.2)

/-- Is `pat` a prefix of `l`? -/
def isPrefixList (pat l : List Char) : Bool :=
  match pat, l with
  | [], _ => true
  | _ :: _, [] => false
  | a :: p, b :: t => a == b && isPrefixList p t

/-- Does `pat` occur as a contiguous substring of `l`? -/
def containsSub (pat : List Char) : List Char → Bool
  | [] => pat.isEmpty
  | c :: t => isPrefixList pat (c :: t) || containsSub pat t

/-- Helper for `javaExceptionFile`: pick the longest prefix of `line` that is
followed by `')'` and contains `".java:"`, i.e. the greedy group of
`\((.*\.java:.*)\)` once the opening parenthesis is fixed. -/
def bestCloseAux (line : List Char) : Nat → Option (List Char)
  | 0 => none
  | k + 1 =>
    let pre := line.take k
    if (line.drop k).head? == some ')' && containsSub ".java:".data pre then some pre
    else bestCloseAux line k

/-- Greedy content of `\((.*\.java:.*)\)` matched against the rest of the line
after an opening parenthesis (`.` does not cross newlines). -/
def javaGroup (rest : List Char) : Option (List Char) :=
  let line := rest.takeWhile (fun c => c ≠ '\n')
  bestCloseAux line line.length

/-- Regex `re.search` scan for `\((.*\.java:.*)\)`: try each position left to right
as the opening parenthesis. -/
def javaSearchFrom : List Char → Option (List Char)
  | [] => none
  | c :: rest =>
    if c = '(' then
      match javaGroup rest with
      | some g => some g
      | none => javaSearchFrom rest
    else javaSearchFrom rest

/-- Embeds `javaExceptionFile(javaException)`: group 1 of the first match of
`\((.*\.java:.*)\)`, or the input unchanged when there is no match. -/
def javaExceptionFile (javaException : String) : String :=
  match javaSearchFrom javaException.data with
  | some g => String.mk g
  | none => javaException

/-- A Python `datetime` restricted to what `decodeTime` produces: midnight of a
year/month/day. `nd` embeds the literal string `"ND"` that `decodeTime` passes
through. -/
inductive TimeVal where
  | nd
  | date (y m d : Nat)
deriving DecidableEq, Repr

/-- Leap year test of the Gregorian calendar (as in Python's `datetime`). -/
def isLeapYear (y : Nat) : Bool :=
  y % 4 == 0 && (y % 100 != 0 || y % 400 == 0)

/-- Days in a month of a given year. -/
def daysInMonth (y m : Nat) : Nat :=
  if m = 2 then (if isLeapYear y then 29 else 28)
  else if m = 4 || m = 6 || m = 9 || m = 11 then 30
  else 31

/-- Days in the months strictly before `m` in year `y`. -/
def daysBeforeMonth (y m : Nat) : Nat :=
  (List.range m).foldl (fun a i => if i ≥ 1 then a + daysInMonth y i else a) 0

/-- Proleptic Gregorian ordinal of a date, as used by `datetime` subtraction:
`datetime(a) - datetime(b)` has `.days = ordinal a - ordinal b` when both are
midnights. -/
def dateOrdinal (y m d : Nat) : Int :=
  let yearsBefore := y - 1
  let leaps := yearsBefore / 4 - yearsBefore / 100 + yearsBefore / 400
  (365 * yearsBefore + leaps + daysBeforeMonth y m + d : Nat)

/-- Split a character list on a separator character, keeping empty pieces
(Python `str.split(sep)`). -/
def splitOnChar (c : Char) : List Char → List (List Char)
  | [] => [[]]
  | x :: xs =>
    let r := splitOnChar c xs
    if x = c then [] :: r
    else
      match r with
      | [] => [[x]]
      | h :: t => (x :: h) :: t

/-- Python `str.split()` with no argument: split on runs of whitespace,
dropping empty pieces. -/
def pySplitWs (s : String) : List String :=
  ((s.data.splitOnP isPySpace).filter (fun p => ¬ p.isEmpty)).map String.mk

/-- Python `datetime.datetime.strptime(s, "%Y/%m/%d")`: three `/`-separated numeric
fields (year up to 4 digits, month and day up to 2), validated against the
calendar; raises `ValueError` otherwise. -/
def strptimeYMD (s : String) : Except String TimeVal :=
  match splitOnChar '/' s.data with
  | [ys, ms, ds] =>
    if ys ≠ [] ∧ ys.length ≤ 4 ∧ ys.all Char.isDigit ∧
       ms ≠ [] ∧ ms.length ≤ 2 ∧ ms.all Char.isDigit ∧
       ds ≠ [] ∧ ds.length ≤ 2 ∧ ds.all Char.isDigit then
      let y := digitsNat ys
      let m := digitsNat ms
      let d := digitsNat ds
      if 1 ≤ y ∧ 1 ≤ m ∧ m ≤ 12 ∧ 1 ≤ d ∧ d ≤ daysInMonth y m then
        .ok (TimeVal.date y m d)
      else .error "ValueError"
    else .error "ValueError"
  | _ => .error "ValueError"

/-- Embeds `decodeTime(time)`: passes `"ND"` through, otherwise parses the date
portion (first whitespace token) with `strptime(_, "%Y/%m/%d")`; raises
`IndexError` on an all-whitespace string. -/
def decodeTime (time : String) : Except String TimeVal :=
  if time == "ND" then .ok TimeVal.nd
  else
    match pySplitWs time with
    | [] => .error "IndexError"
    | t0 :: _ => strptimeYMD t0

/-- The function `decodeTime` applied to a value that may be Python `None` (calling a
method on `None` raises `AttributeError`). -/
def decodeTimeOpt : Option String → Except String TimeVal
  | none => .error "AttributeError"
  | some s => decodeTime s

/-- The version table `OPTIONS.versions` after `read_versions`: an association
list from version string to resolved release type (a type can be Python
`None` when the version file opened with version lines before any `type`
line). -/
abbrev Versions := List (String × Option String)

/-- A `NormalizedRecord`: the dict built by `RecordDecoder.decode`, binding
field names to values that are strings or Python `None`. -/
abbrev Bindings := List (String × Option String)

/-- Dict-style insertion: overwrite the binding of `k` if present, else append
a new binding. -/
def bindInsert : Bindings → String → Option String → Bindings
  | [], k, v => [(k, v)]
  | (k', v') :: rest, k, v =>
    if k' = k then (k, v) :: rest else (k', v') :: bindInsert rest k v

/-- The decoder's field transforms: each takes the source element and produces
the bound value (a string or Python `None`), or raises. -/
abbrev Fmt := Elt → Except String (Option String)

/-- Transform `id`: `elt.text` unchanged. -/
def fmtId : Fmt := fun elt => .ok elt.text

/-- Transform `toString`: `'%s' % elt.text` (renders `None` as `"None"`). -/
def fmtToString : Fmt := fun elt => .ok (some (pyStr elt.text))

/-- Embeds `formatMajorVersion`: `parseGATKVersion(elt.text)[0]`; `re.match` on
`None` raises `TypeError`, and `parseGATKVersion` itself may raise. -/
def formatMajorVersion : Fmt := fun elt =>
  match elt.text with
  | none => .error "TypeError"
  | some t =>
    match parseGATKVersion t with
    | .ok mv => .ok (some mv.1)
    | .error e => .error e

/-- Embeds `formatMinorVersion`: `str(parseGATKVersion(elt.text)[1])`. -/
def formatMinorVersion : Fmt := fun elt =>
  match elt.text with
  | none => .error "TypeError"
  | some t =>
    match parseGATKVersion t with
    | .ok mv => .ok (some (toString mv.2))
    | .error e => .error e

/-- Embeds `formatReleaseType`: looks the element's text up in `OPTIONS.versions`,
returning `"unknown"` when absent (a `None` text is never a dict key). -/
def formatReleaseType (versions : Versions) (elt : Elt) : Except String (Option String) :=
  match elt.text with
  | none => .ok (some "unknown")
  | some t =>
    match List.lookup t versions with
    | none => .ok (some "unknown")
    | some ty => .ok ty

/-- Embeds `formatExceptionMsg`: `'%s' % parseException(elt)[0]`. -/
def formatExceptionMsg : Fmt := fun elt =>
  match parseException elt with
  | .ok p => .ok (some (pyStr p.1))
  | .error e => .error e

/-- Embeds `formatExceptionAt`: `'%s' % parseException(elt)[1]`. -/
def formatExceptionAt : Fmt := fun elt =>
  match parseException elt with
  | .ok p => .ok (some p.2.1)
  | .error e => .error e

/-- Embeds `formatExceptionAtBrief`: `'%s' % javaExceptionFile(parseException(elt)[1])`. -/
def formatExceptionAtBrief : Fmt := fun elt =>
  match parseException elt with
  | .ok p => .ok (some (javaExceptionFile p.2.1))
  | .error e => .error e

/-- Embeds `formatExceptionUser`: `'%s' % parseException(elt)[2]`. -/
def formatExceptionUser : Fmt := fun elt =>
  match parseException elt with
  | .ok p => .ok (some (pyStr p.2.2.1))
  | .error e => .error e

/-- Embeds `formatRunStatus`: `parseException(elt)[3]`. -/
def formatRunStatus : Fmt := fun elt =>
  match parseException elt with
  | .ok p => .ok (some p.2.2.2)
  | .error e => .error e

/-- Embeds `formatHostName`: the element's text, or `'unknown'` when missing. -/
def formatHostName (elt : Elt) : String :=
  match elt.text with
  | some t => t
  | none => "unknown"

/-- The function `formatHostName` wrapped as a transform. -/
def fmtHostName : Fmt := fun elt => .ok (some (formatHostName elt))

/-- Join a list of strings with a separator (Python `sep.join`). -/
def joinStrs (sep : String) : List String → String
  | [] => ""
  | [s] => s
  | s :: x :: rest => s ++ sep ++ joinStrs sep (x :: rest)

/-- Embeds `formatDomainName`: the last two dot-separated labels of the host name, or
`'unknown'` when it has fewer than two labels. -/
def formatDomainName : Fmt := fun elt =>
  let hostname := formatHostName elt
  let parts := (splitOnChar '.' hostname.data).map String.mk
  if parts.length ≥ 2 then
    .ok (some (joinStrs "." (parts.drop (parts.length - 2))))
  else .ok (some "unknown")

/-- Embeds `RecordDecoder.formatters`: map from source tag to the list of
(output field, transform) pairs registered in `RecordDecoder.__init__`, in
registration order. -/
def formatterTable (versions : Versions) : List (String × List (String × Fmt)) :=
  [ ("id", [("id", fmtId)]),
    ("walker-name", [("walker-name", fmtId)]),
    ("svn-version",
      [("svn-version", fmtId), ("gatk-version", formatMajorVersion),
       ("gatk-minor-version", formatMinorVersion),
       ("release-type", fun elt => formatReleaseType versions elt)]),
    ("start-time", [("start-time", fmtToString)]),
    ("end-time", [("end-time", fmtToString)]),
    ("run-time", [("run-time", fmtId)]),
    ("user-name", [("user-name", fmtId)]),
    ("host-name", [("host-name", fmtHostName), ("domain-name", formatDomainName)]),
    ("java", [("java", fmtToString)]),
    ("machine", [("machine", fmtToString)]),
    ("max-memory", [("max-memory", fmtId)]),
    ("total-memory", [("total-memory", fmtId)]),
    ("iterations", [("iterations", fmtId)]),
    ("exception",
      [("exception-msg", formatExceptionMsg), ("stacktrace", formatExceptionAt),
       ("exception-at-brief", formatExceptionAtBrief),
       ("is-user-exception", formatExceptionUser), ("run-status", formatRunStatus)]) ]

/-- Embeds `RecordDecoder.fields`: all declared output field names, in registration
order. -/
def decoderFields : List String :=
  [ "id", "walker-name",
    "svn-version", "gatk-version", "gatk-minor-version", "release-type",
    "start-time", "end-time",
    "run-time", "user-name",
    "host-name", "domain-name",
    "java", "machine",
    "max-memory", "total-memory", "iterations",
    "exception-msg", "stacktrace", "exception-at-brief", "is-user-exception",
    "run-status" ]

/-- The pure shape of `formatterTable`: each source tag with its output field
names. -/
def formatterFieldNames : List (String × List String) :=
  [ ("id", ["id"]),
    ("walker-name", ["walker-name"]),
    ("svn-version", ["svn-version", "gatk-version", "gatk-minor-version", "release-type"]),
    ("start-time", ["start-time"]),
    ("end-time", ["end-time"]),
    ("run-time", ["run-time"]),
    ("user-name", ["user-name"]),
    ("host-name", ["host-name", "domain-name"]),
    ("java", ["java"]),
    ("machine", ["machine"]),
    ("max-memory", ["max-memory"]),
    ("total-memory", ["total-memory"]),
    ("iterations", ["iterations"]),
    ("exception",
      ["exception-msg", "stacktrace", "exception-at-brief", "is-user-exception",
       "run-status"]) ]

/-- Apply one tag's registered (field, transform) pairs to the element,
binding each result in order. -/
def applyFormats (e : Elt) : Bindings → List (String × Fmt) → Except String Bindings
  | bs, [] => .ok bs
  | bs, (f, fn) :: rest =>
    match fn e with
    | .ok v => applyFormats e (bindInsert bs f v) rest
    | .error err => .error err

/-- The child-scanning loop of `RecordDecoder.decode`: for each child whose
tag is registered, apply its transforms. -/
def decodeChildren (versions : Versions) : Bindings → List Elt → Except String Bindings
  | bs, [] => .ok bs
  | bs, c :: rest =>
    match List.lookup c.tag (formatterTable versions) with
    | none => decodeChildren versions bs rest
    | some ffs =>
      match applyFormats c bs ffs with
      | .ok bs1 => decodeChildren versions bs1 rest
      | .error e => .error e

/-- The missing-data loop of `RecordDecoder.decode`: every declared field not
yet bound receives `MISSING_VALUE`. -/
def fillMissing : Bindings → List String → Bindings
  | bs, [] => bs
  | bs, f :: rest =>
    fillMissing
      (if (List.lookup f bs).isSome then bs else bindInsert bs f (some MISSING_VALUE))
      rest

/-- Embeds `RecordDecoder.decode(report)`: scan the report's children through the
registered transforms, then fill every unbound declared field with
`MISSING_VALUE`. -/
def decode (versions : Versions) (report : Elt) : Except String Bindings :=
  match decodeChildren versions [] report.children with
  | .ok bs => .ok (fillMissing bs decoderFields)
  | .error e => .error e

/-- Embeds `eltTagEquals(elt, tag, value, startsWith=None)`: as written in the
source,
`msgElt != None and (msgElt.text == value or (startsWith == None or
msgElt.text.startswith(startsWith)))`,
with Python's short-circuit evaluation; `.startswith` on a `None` text raises
`AttributeError`. -/
def eltTagEquals (elt : Option Elt) (tag : String) (value : Option String)
    (startsWith : Option String) : Except String Bool :=
  match elt with
  | none => .ok false
  | some e =>
    match e.find tag with
    | none => .ok false
    | some msgElt =>
      if msgElt.text == value then .ok true
      else
        match startsWith with
        | none => .ok true
        | some sw =>
          match msgElt.text with
          | none => .error "AttributeError"
          | some t => .ok (sw.data.isPrefixOf t.data)

/-- A Python `datetime.date` triple, used for "today at midnight" in
`passesFilters`. -/
structure PyDate where
  y : Nat
  m : Nat
  d : Nat
deriving DecidableEq

/-- Embeds `passesFilters(elt)`: the three record filters, in source order.  The
options `noDev`, `rev` and `maxDays` are the corresponding `OPTIONS` fields,
and `now` is today's midnight. -/
def passesFilters (noDev : Bool) (rev : Option String) (maxDays : Option Int)
    (now : PyDate) (elt : Elt) : Except String Bool :=
  match (if noDev then eltTagEquals (elt.find "argument-collection") "phone-home-type" (some "DEV") none
         else .ok false : Except String Bool) with
  | .error e => .error e
  | .ok devHit =>
    if devHit then .ok false
    else
      match (match rev with
             | none => .ok false
             | some rv =>
               match eltTagEquals (some elt) "svn-version" none (some rv) with
               | .ok b => .ok (!b)
               | .error e => .error e : Except String Bool) with
      | .error e => .error e
      | .ok revMiss =>
        if revMiss then .ok false
        else
          match maxDays with
          | none => .ok true
          | some md =>
            match (match elt.find "end-time" with
                   | none => .error "AttributeError"
                   | some e => decodeTimeOpt e.text : Except String TimeVal) with
            | .error e => .error e
            | .ok TimeVal.nd => .error "TypeError"
            | .ok (TimeVal.date y m d) =>
              if dateOrdinal now.y now.m now.d - dateOrdinal y m d > md then .ok false
              else .ok true

/-- Embeds `resolveType(version, types)` from `read_versions`: more than 3 tags or 2
tags without `'stable'` raise; 3 tags collapse to `"gatk.git"`, 2 (with
`'stable'`) to `"stable"`, otherwise `types[0]` (raising `IndexError` on an
empty list). -/
def resolveType (version : String) (types : List (Option String)) :
    Except String (Option String) :=
  if types.length > 3 then .error "Unexpected number of types"
  else if types.length = 3 then .ok (some "gatk.git")
  else if types.length = 2 then
    if some "stable" ∈ types then .ok (some "stable")
    else .error "Unexpected combination"
  else
    match types with
    | [] => .error "IndexError"
    | t :: _ => .ok t

/-- Append a tag to a version's list in the raw version dict (creating the
entry on first sight), as the line loop of `read_versions` does. -/
def appendVersionTag (d : List (String × List (Option String))) (line : String)
    (ty : Option String) : List (String × List (Option String)) :=
  match d with
  | [] => [(line, [ty])]
  | (k, ts) :: rest =>
    if k = line then (k, ts ++ [ty]) :: rest
    else (k, ts) :: appendVersionTag rest line ty

/-- The line loop of `read_versions`: `type <tag>` lines set the current tag,
other lines append the current tag to that version's list.  An empty line
raises `IndexError` (`vals[0]`), and a bare `type` line raises on `vals[1]`. -/
def buildVersionDict : List String → Option String →
    List (String × List (Option String)) →
    Except String (List (String × List (Option String)))
  | [], _, d => .ok d
  | line :: rest, ty, d =>
    let l := String.mk (stripWs line.data)
    match pySplitWs l with
    | [] => .error "IndexError"
    | v0 :: vrest =>
      if v0 == "type" then
        match vrest with
        | [] => .error "IndexError"
        | t :: _ => buildVersionDict rest (some t) d
      else buildVersionDict rest ty (appendVersionTag d l ty)

/-- Embeds `read_versions(file)` on the file's lines: build the raw dict, then
resolve every version's tag list. -/
def read_versions (lines : List String) : Except String Versions :=
  match buildVersionDict lines none [] with
  | .error e => .error e
  | .ok d => d.mapM (fun p =>
      match resolveType p.1 p.2 with
      | .ok r => .ok (p.1, r)
      | .error e => .error e)

/-- Dict access `ex[k]` on a decoded record: raises `KeyError` when the key is
absent. -/
def pyGet (ex : Bindings) (k : String) : Except String (Option String) :=
  match List.lookup k ex with
  | some v => .ok v
  | none => .error "KeyError"

/-- Set-style add: Python `set.add`, modelled on duplicate-free lists. -/
def setAdd [DecidableEq α] (l : List α) (x : α) : List α :=
  if x ∈ l then l else l ++ [x]

/-- Embeds `CommonException`: one aggregated exception group.  The Python sets are
modelled as duplicate-free lists. -/
structure CommonException where
  msgs : List (Option String)
  atSig : Option String
  svns : List (Option String)
  users : List (Option String)
  userError : Option String
  counts : Nat
  times : List TimeVal
  walkers : List (Option String)
  ids : List (Option String)
deriving DecidableEq, Repr

/-- Embeds `CommonException.__init__(self, ex)`. -/
def CommonException.ofEx (ex : Bindings) : Except String CommonException := do
  let msg ← pyGet ex "exception-msg"
  let a ← pyGet ex "stacktrace"
  let svn ← pyGet ex "svn-version"
  let user ← pyGet ex "user-name"
  let ue ← pyGet ex "is-user-exception"
  let et ← pyGet ex "end-time"
  let t ← decodeTimeOpt et
  let w ← pyGet ex "walker-name"
  let i ← pyGet ex "id"
  .ok { msgs := [msg], atSig := a, svns := [svn], users := [user], userError := ue,
        counts := 1, times := [t], walkers := [w], ids := [i] }

/-- Embeds `CommonException.update(self, ex)`. -/
def CommonException.update (c : CommonException) (ex : Bindings) :
    Except String CommonException := do
  let msg ← pyGet ex "exception-msg"
  let svn ← pyGet ex "svn-version"
  let user ← pyGet ex "user-name"
  let w ← pyGet ex "walker-name"
  let et ← pyGet ex "end-time"
  let t ← decodeTimeOpt et
  let i ← pyGet ex "id"
  .ok { c with
        msgs := setAdd c.msgs msg, svns := setAdd c.svns svn,
        users := setAdd c.users user, counts := c.counts + 1,
        walkers := setAdd c.walkers w, times := setAdd c.times t,
        ids := setAdd c.ids i }

/-- Embeds `addToCommons(ex)` from `ExceptionReport.finalize`: update the first
`CommonException` whose stack signature equals the record's (in-place), else
append a fresh one at the end. -/
def addToCommons : List CommonException → Bindings → Except String (List CommonException)
  | [], ex =>
    (match CommonException.ofEx ex with
     | .ok c => .ok [c]
     | .error e => .error e)
  | c :: rest, ex =>
    match pyGet ex "stacktrace" with
    | .error e => .error e
    | .ok s =>
      if c.atSig = s then
        match c.update ex with
        | .ok c1 => .ok (c1 :: rest)
        | .error e => .error e
      else
        match addToCommons rest ex with
        | .ok rest1 => .ok (c :: rest1)
        | .error e => .error e

/-- The grouping pass of `ExceptionReport.finalize`: fold every buffered
decoded record through `addToCommons`, starting from the empty list. -/
def aggregateExceptions (exs : List Bindings) : Except String (List CommonException) :=
  exs.foldlM addToCommons []

/-- Comparison of `TimeVal`s as Python compares `datetime`s
(lexicographically); the filtered `"ND"` sentinel is ordered first so that the
relation is total. -/
def timeLeB : TimeVal → TimeVal → Bool
  | TimeVal.nd, _ => true
  | TimeVal.date _ _ _, TimeVal.nd => false
  | TimeVal.date y1 m1 d1, TimeVal.date y2 m2 d2 =>
    (y1 < y2) || (y1 = y2 && ((m1 < m2) || (m1 = m2 && d1 ≤ d2)))

/-- The relation `timeLeB` as a proposition, for use with `List.insertionSort`. -/
def timeLe (a b : TimeVal) : Prop := timeLeB a b = true

instance : DecidableRel timeLe := fun a b =>
  (inferInstance : Decidable (timeLeB a b = true))

/-- Python `datetime.strftime("%m/%d/%y")`: zero-padded month, day and two-digit
year. `"ND"` never reaches this formatting in the source; it is mapped to
itself. -/
def fmtMDY : TimeVal → String
  | TimeVal.nd => "ND"
  | TimeVal.date y m d => pad2 m ++ "/" ++ pad2 d ++ "/" ++ pad2 (y % 100)
where
  pad2 (n : Nat) : String := if n < 10 then "0" ++ toString n else toString n

/-- Python `str(datetime)`: `"YYYY-MM-DD HH:MM:SS"`; `decodeTime` results are
always midnight. -/
def pyDatetimeStr : TimeVal → String
  | TimeVal.nd => "ND"
  | TimeVal.date y m d => pad4 y ++ "-" ++ pad2 m ++ "-" ++ pad2 d ++ " 00:00:00"
where
  pad2 (n : Nat) : String := if n < 10 then "0" ++ toString n else toString n
  pad4 (n : Nat) : String :=
    if n < 10 then "000" ++ toString n
    else if n < 100 then "00" ++ toString n
    else if n < 1000 then "0" ++ toString n
    else toString n

/-- Embeds `CommonException.duration(self)`: sort the non-`"ND"` collected times;
with two or more render `first-last` with `strftime("%m/%d/%y")`, with exactly
one return that element itself (a `datetime`, rendered by `print` via `str`),
else `"ND"`. -/
def CommonException.duration (times : List TimeVal) : String :=
  let x := List.insertionSort timeLe (times.filter (fun t => t ≠ TimeVal.nd))
  if 2 ≤ x.length then
    fmtMDY (x.headD TimeVal.nd) ++ "-" ++ fmtMDY (x.getLastD TimeVal.nd)
  else if x.length = 1 then pyDatetimeStr (x.headD TimeVal.nd)
  else "ND"

/-- Embeds `ExceptionReport.processRecord(self, record)`: buffer `decode(record)`
when the record has an exception child; there is no try/except here, so a
decode error propagates. -/
def ExceptionReport.processRecord (versions : Versions) (r : Elt)
    (st : List Bindings) : Except String (List Bindings) :=
  if r.children.any eltIsException then
    match decode versions r with
    | .ok b => .ok (st ++ [b])
    | .error e => .error e
  else .ok st

/-- Streaming a record list through `ExceptionReport.processRecord`. -/
def excProcessStream (versions : Versions) (rs : List Elt) (st : List Bindings) :
    Except String (List Bindings) :=
  rs.foldlM (fun s r => ExceptionReport.processRecord versions r s) st

/-- Embeds `SummaryReport.processRecord(self, record)`: buffer `decode(record)`
unconditionally; no try/except, so a decode error propagates. -/
def SummaryReport.processRecord (versions : Versions) (r : Elt)
    (st : List Bindings) : Except String (List Bindings) :=
  match decode versions r with
  | .ok b => .ok (st ++ [b])
  | .error e => .error e

/-- State of the SQL-insert sink: emitted INSERT statements plus the
diagnostic log, each log entry being (message, printed record id). -/
structure SqlState where
  inserts : List String
  log : List (String × String)
deriving DecidableEq, Repr

/-- Replace every occurrence of one character (Python
`val.replace('"', "'")`). -/
def replaceChar (s : String) (a b : Char) : String :=
  String.mk (s.data.map (fun c => if c = a then b else c))

/-- The fixed column order of `SQLRecordHandler.getFields`. -/
def sqlFields : List String :=
  [ "id", "walker-name", "gatk-version",
    "gatk-minor-version", "svn-version",
    "start-time", "end-time", "run-time",
    "user-name", "host-name", "domain-name",
    "total-memory", "stacktrace", "exception-at-brief",
    "exception-msg", "is-user-exception",
    "run-status", "release-type" ]

/-- Embeds `oneField` inside `InsertRecordIntoTable.processRecord`: start from
`MISSING_VALUE`, take the parsed value when the key exists; a `None` value is
left as `None` (to make the later join raise); otherwise patch a missing
run-status to `"success"`, replace double quotes with single ones, and wrap in
double quotes. -/
def sqlOneField (parsed : Bindings) (field : String) : Option String :=
  match List.lookup field parsed with
  | none => some MISSING_VALUE
  | some none => none
  | some (some v) =>
    let v := if field = "run-status" ∧ v = MISSING_VALUE then RUN_STATUS_SUCCESS else v
    some ("\"" ++ replaceChar v '"' '\'' ++ "\"")

/-- Python `", ".join(values)`: raises `TypeError` when a member is `None`. -/
def pyJoinVals (sep : String) : List (Option String) → Except String String
  | [] => .ok ""
  | [none] => .error "TypeError"
  | [some s] => .ok s
  | none :: _ => .error "TypeError"
  | some s :: x :: rest =>
    match pyJoinVals sep (x :: rest) with
    | .ok r => .ok (s ++ sep ++ r)
    | .error e => .error e

/-- Embeds `InsertRecordIntoTable.processRecord(self, record)`: the whole body runs
under a try/except; `id` starts as `'unknown'` and becomes `parsed['id']`
after a successful decode, so the skip log names `'unknown'` exactly when the
decode itself (or the id lookup) failed. -/
def InsertRecordIntoTable.processRecord (versions : Versions) (r : Elt)
    (st : SqlState) : SqlState :=
  match decode versions r with
  | .error _ => { st with log := st.log ++ [("Skipping excepting record", "unknown")] }
  | .ok parsed =>
    match List.lookup "id" parsed with
    | none => { st with log := st.log ++ [("Skipping excepting record", "unknown")] }
    | some idv =>
      match pyJoinVals ", " (sqlFields.map (sqlOneField parsed)) with
      | .error _ =>
        { st with log := st.log ++ [("Skipping excepting record", pyStr idv)] }
      | .ok valuesStr =>
        { st with inserts :=
            st.inserts ++ ["INSERT INTO GATK_LOGS VALUES(" ++ valuesStr ++ ")"] }

/-- Streaming a record list through `InsertRecordIntoTable.processRecord`:
total, because every record's errors are caught inside `processRecord`. -/
def sqlProcessStream (versions : Versions) (rs : List Elt) (st : SqlState) : SqlState :=
  rs.foldl (fun s r => InsertRecordIntoTable.processRecord versions r s) st

/-- Does a record pass the `-i` id filter of the driver loop
(`OPTIONS.ID == None or ID == OPTIONS.ID`)? -/
def recordMatches (idOpt : Option String) (r : Elt) : Bool :=
  match idOpt with
  | none => true
  | some i =>
    match r.find "id" with
    | none => false
    | some e => e.text == some i

/-- The `maxRecords` cutoff test of the driver loop:
`OPTIONS.maxRecords > 0 and counter > OPTIONS.maxRecords` (in Python 2,
`None > 0` is false). -/
def cutoffHit (maxR : Option Int) (counter : Int) : Bool :=
  match maxR with
  | none => false
  | some m => decide (0 < m) && decide (m < counter)

/-- The driver loop of `main`: read each record's id (raising
`AttributeError` when the id child is missing), apply the id filter, call the
handler and increment the counter, then test the cutoff.  Returns the final
counter, which equals the number of `handler.processRecord` calls. -/
def mainLoop (idOpt : Option String) (maxR : Option Int) :
    List Elt → Int → Except String Int
  | [], counter => .ok counter
  | r :: rest, counter =>
    match r.find "id" with
    | none => .error "AttributeError"
    | some e =>
      if idOpt == none || e.text == idOpt then
        if cutoffHit maxR (counter + 1) then .ok (counter + 1)
        else mainLoop idOpt maxR rest (counter + 1)
      else mainLoop idOpt maxR rest counter


/-- Totality of `timeLe` (needed to apply `List.sorted_insertionSort`). -/
instance : IsTotal TimeVal timeLe :=
  ⟨by
    intro a b
    cases a with
    | nd => exact Or.inl rfl
    | date y1 m1 d1 =>
      cases b with
      | nd => exact Or.inr rfl
      | date y2 m2 d2 =>
        unfold timeLe timeLeB
        simp only [Bool.or_eq_true, Bool.and_eq_true, decide_eq_true_eq]
        omega⟩

/-- Transitivity of `timeLe` (needed to apply `List.sorted_insertionSort`). -/
instance : IsTrans TimeVal timeLe :=
  ⟨by
    intro a b c h1 h2
    cases a with
    | nd => exact rfl
    | date y1 m1 d1 =>
      cases b with
      | nd => exact absurd h1 (by unfold timeLe timeLeB; simp)
      | date y2 m2 d2 =>
        cases c with
        | nd => exact absurd h2 (by unfold timeLe timeLeB; simp)
        | date y3 m3 d3 =>
          unfold timeLe timeLeB at h1 h2 ⊢
          simp only [Bool.or_eq_true, Bool.and_eq_true, decide_eq_true_eq] at h1 h2 ⊢
          omega⟩

/-- The aggregation invariant maintained by `addToCommons` over the stream of
decoded exception records already processed: signatures are unique, each
group's count is the number of processed records with its signature, each
group's id set is exactly the ids of those records, and every processed
record's signature has a group. -/
def AggInv (processed : List Bindings) (cs : List CommonException) : Prop :=
  (cs.map CommonException.atSig).Nodup ∧
  (∀ c ∈ cs,
    c.counts = (processed.filter
      (fun ex => decide (List.lookup "stacktrace" ex = some c.atSig))).length ∧
    (∀ v, v ∈ c.ids ↔ ∃ ex ∈ processed,
      List.lookup "stacktrace" ex = some c.atSig ∧ List.lookup "id" ex = some v)) ∧
  (∀ ex ∈ processed, ∃ c ∈ cs, List.lookup "stacktrace" ex = some c.atSig)

/-- A run-report record whose `argument-collection` has a `phone-home-type`
child with text `"STANDARD"` (not `"DEV"`). -/
def c1Record : Elt :=
  Elt.mk "GATK-run-report" none
    [Elt.mk "id" (some "r1") [],
     Elt.mk "argument-collection" none
       [Elt.mk "phone-home-type" (some "STANDARD") []]]

/-- A run-report record with no `exception` child. -/
def c2Record : Elt := Elt.mk "GATK-run-report" none [Elt.mk "id" (some "x") []]

/-- The record produced by decoding `c2Record`. -/
def c2Full : Bindings :=
  [("id", some "x"), ("walker-name", some "NA"), ("svn-version", some "NA"),
   ("gatk-version", some "NA"), ("gatk-minor-version", some "NA"),
   ("release-type", some "NA"), ("start-time", some "NA"), ("end-time", some "NA"),
   ("run-time", some "NA"), ("user-name", some "NA"), ("host-name", some "NA"),
   ("domain-name", some "NA"), ("java", some "NA"), ("machine", some "NA"),
   ("max-memory", some "NA"), ("total-memory", some "NA"), ("iterations", some "NA"),
   ("exception-msg", some "NA"), ("stacktrace", some "NA"),
   ("exception-at-brief", some "NA"), ("is-user-exception", some "NA"),
   ("run-status", some "NA")]

/-- An exception element with message, stacktrace and user flag. -/
def c3ExcElt : Elt :=
  Elt.mk "exception" none
    [Elt.mk "message" (some "boom") [],
     Elt.mk "stacktrace" none
       [Elt.mk "string" (some "at Foo.bar(Foo.java:12)") []],
     Elt.mk "is-user-exception" (some "false") []]

/-- A record whose decode raises: its `svn-version` text `"1.0.6"` makes
`parseGATKVersion` call `int("")`. -/
def c3BadRecord : Elt :=
  Elt.mk "GATK-run-report" none
    [Elt.mk "id" (some "bad1") [], Elt.mk "svn-version" (some "1.0.6") [], c3ExcElt]

/-- A record that decodes without error. -/
def c3GoodRecord : Elt :=
  Elt.mk "GATK-run-report" none
    [Elt.mk "id" (some "good1") [], Elt.mk "svn-version" (some "1.3") [], c3ExcElt]

/-- A record binding only `walker-name` during the child scan. -/
def c6Record : Elt := Elt.mk "GATK-run-report" none [Elt.mk "walker-name" (some "W") []]

/-- The bindings after the child scan of `c6Record`. -/
def c6Partial : Bindings := [("walker-name", some "W")]

/-- The record produced by decoding `c6Record`. -/
def c6Full : Bindings :=
  [("walker-name", some "W"), ("id", some "NA"), ("svn-version", some "NA"),
   ("gatk-version", some "NA"), ("gatk-minor-version", some "NA"),
   ("release-type", some "NA"), ("start-time", some "NA"), ("end-time", some "NA"),
   ("run-time", some "NA"), ("user-name", some "NA"), ("host-name", some "NA"),
   ("domain-name", some "NA"), ("java", some "NA"), ("machine", some "NA"),
   ("max-memory", some "NA"), ("total-memory", some "NA"), ("iterations", some "NA"),
   ("exception-msg", some "NA"), ("stacktrace", some "NA"),
   ("exception-at-brief", some "NA"), ("is-user-exception", some "NA"),
   ("run-status", some "NA")]

/-- A decoded exception record with signature `sigA` and id `id1`. -/
def c7Ex1 : Bindings :=
  [("exception-msg", some "m1"), ("stacktrace", some "sigA"),
   ("svn-version", some "1.3"), ("user-name", some "u"),
   ("is-user-exception", some "false"), ("end-time", some "ND"),
   ("walker-name", some "w"), ("id", some "id1")]

/-- A decoded exception record with signature `sigA` and id `id2`. -/
def c7Ex2 : Bindings :=
  [("exception-msg", some "m2"), ("stacktrace", some "sigA"),
   ("svn-version", some "1.3"), ("user-name", some "u"),
   ("is-user-exception", some "false"), ("end-time", some "ND"),
   ("walker-name", some "w"), ("id", some "id2")]

/-- A decoded exception record with signature `sigB` and id `id3`. -/
def c7Ex3 : Bindings :=
  [("exception-msg", some "m3"), ("stacktrace", some "sigB"),
   ("svn-version", some "1.3"), ("user-name", some "u"),
   ("is-user-exception", some "false"), ("end-time", some "ND"),
   ("walker-name", some "w"), ("id", some "id3")]

/-- Three decoded exception records, two sharing a signature. -/
def c7Exs : List Bindings := [c7Ex1, c7Ex2, c7Ex3]

/-- The aggregated group for signature `sigA` (two merged records). -/
def c7CommonA : CommonException :=
  ⟨[some "m1", some "m2"], some "sigA", [some "1.3"], [some "u"], some "false", 2,
   [TimeVal.nd], [some "w"], [some "id1", some "id2"]⟩

/-- The aggregated group for signature `sigB` (one record). -/
def c7CommonB : CommonException :=
  ⟨[some "m3"], some "sigB", [some "1.3"], [some "u"], some "false", 1,
   [TimeVal.nd], [some "w"], [some "id3"]⟩

/-- The aggregation of `c7Exs`. -/
def c7Commons : List CommonException := [c7CommonA, c7CommonB]


/-- State of the table sink: emitted lines plus the diagnostic log. -/
structure TableState where
  out : List String
  errlog : List String
deriving DecidableEq, Repr

/-- Does a string contain a character (Python `val.find(" ") != -1`)? -/
def containsChar (s : String) (c : Char) : Bool :=
  s.data.any (fun x => x = c)

/-- Embeds `oneField` inside `AbstractRecordAsTable.processRecord`: start from
`MISSING_VALUE`, take the parsed value when the key exists; a `None` value is
left as `None` (making the later join raise); otherwise replace double quotes
with single ones and wrap in double quotes only when the value contains a
space. -/
def tableOneField (parsed : Bindings) (field : String) : Option String :=
  match List.lookup field parsed with
  | none => some MISSING_VALUE
  | some none => none
  | some (some v) =>
    let v1 := replaceChar v '"' '\''
    if containsChar v1 ' ' then some ("\"" ++ v1 ++ "\"") else some v1

/-- Embeds `AbstractRecordAsTable.processRecord` for the `table` mode (whose
field list is the decoder's full field list): the body runs under a
try/except that prints `'Failed to convert to table'` — note it logs the
record, not its identifier. -/
def RecordAsTable.processRecord (versions : Versions) (r : Elt)
    (st : TableState) : TableState :=
  match decode versions r with
  | .error _ => { st with errlog := st.errlog ++ ["Failed to convert to table"] }
  | .ok parsed =>
    match pyJoinVals "\t" (decoderFields.map (tableOneField parsed)) with
    | .error _ => { st with errlog := st.errlog ++ ["Failed to convert to table"] }
    | .ok line => { st with out := st.out ++ [line] }

/-- Streaming a record list through `RecordAsTable.processRecord`: total,
because errors are caught per record. -/
def tableProcessStream (versions : Versions) (rs : List Elt) (st : TableState) :
    TableState :=
  rs.foldl (fun s r => RecordAsTable.processRecord versions r s) st

/-- Streaming a record list through `SummaryReport.processRecord`. -/
def sumProcessStream (versions : Versions) (rs : List Elt) (st : List Bindings) :
    Except String (List Bindings) :=
  rs.foldlM (fun s r => SummaryReport.processRecord versions r s) st

/-- A digit character is not Python whitespace. -/
theorem digit_not_pySpace (c : Char) (h : c.isDigit = true) : isPySpace c = false := by
  by_contra hc
  rw [Bool.not_eq_false, isPySpace, Bool.or_eq_true, Bool.or_eq_true, Bool.or_eq_true,
    Bool.or_eq_true, Bool.or_eq_true] at hc
  simp only [decide_eq_true_eq] at hc
  rcases hc with ((((rfl | rfl) | rfl) | rfl) | rfl) | rfl <;> exact absurd h (by decide)

/-- A digit character differs from any non-digit character. -/
theorem digit_ne (c x : Char) (h : c.isDigit = true) (hx : x.isDigit = false) : c ≠ x := by
  intro e; subst e; rw [h] at hx; exact Bool.noConfusion hx

/-- Dropping while a predicate holds leaves a list whose members all fail the
predicate unchanged. -/
theorem dropWhile_eq_of_all_not (p : Char → Bool) (l : List Char)
    (h : ∀ c ∈ l, p c = false) : l.dropWhile p = l := by
  cases l with
  | nil => rfl
  | cons a t => simp [List.dropWhile_cons, h a (by simp)]

/-- Stripping whitespace from a whitespace-free list is the identity. -/
theorem stripWs_eq_self (l : List Char) (h : ∀ c ∈ l, isPySpace c = false) :
    stripWs l = l := by
  unfold stripWs
  rw [dropWhile_eq_of_all_not _ _ h,
    dropWhile_eq_of_all_not _ _ (fun c hc => h c (List.mem_reverse.mp hc)),
    List.reverse_reverse]

/-- Taking while a predicate holds keeps a list all of whose members satisfy
it. -/
theorem takeWhile_eq_of_all (p : Char → Bool) (l : List Char)
    (h : ∀ c ∈ l, p c = true) : l.takeWhile p = l := by
  induction l with
  | nil => rfl
  | cons a t ih =>
    rw [List.takeWhile_cons, if_pos (h a (by simp)), ih (fun c hc => h c (by simp [hc]))]

/-- Dropping while a predicate holds empties a list all of whose members
satisfy it. -/
theorem dropWhile_eq_nil_of_all (p : Char → Bool) (l : List Char)
    (h : ∀ c ∈ l, p c = true) : l.dropWhile p = [] := by
  induction l with
  | nil => rfl
  | cons a t ih =>
    rw [List.dropWhile_cons, if_pos (h a (by simp)), ih (fun c hc => h c (by simp [hc]))]

/-- Greedy `takeWhile` over a satisfying block followed by a failing
character. -/
theorem takeWhile_append_not (p : Char → Bool) (l1 : List Char) (c : Char)
    (l2 : List Char) (h1 : ∀ x ∈ l1, p x = true) (h2 : p c = false) :
    (l1 ++ c :: l2).takeWhile p = l1 := by
  induction l1 with
  | nil => rw [List.nil_append, List.takeWhile_cons, if_neg (by simp [h2])]
  | cons a t ih =>
    rw [List.cons_append, List.takeWhile_cons, if_pos (h1 a (by simp)),
      ih (fun x hx => h1 x (by simp [hx]))]

/-- Greedy `dropWhile` over a satisfying block followed by a failing
character. -/
theorem dropWhile_append_not (p : Char → Bool) (l1 : List Char) (c : Char)
    (l2 : List Char) (h1 : ∀ x ∈ l1, p x = true) (h2 : p c = false) :
    (l1 ++ c :: l2).dropWhile p = c :: l2 := by
  induction l1 with
  | nil => rw [List.nil_append, List.dropWhile_cons, if_neg (by simp [h2])]
  | cons a t ih =>
    rw [List.cons_append, List.dropWhile_cons, if_pos (h1 a (by simp))]
    exact ih (fun x hx => h1 x (by simp [hx]))

/-- Python `int` on a nonempty all-digit string returns its numeric value. -/
theorem pyInt_digits (ds : List Char) (hne : ds ≠ [])
    (hd : ∀ c ∈ ds, c.isDigit = true) :
    pyInt (String.mk ds) = .ok (digitsNat ds : Int) := by
  cases ds with
  | nil => exact absurd rfl hne
  | cons c rest =>
    have hc := hd c (by simp)
    have hs : stripWs (String.mk (c :: rest)).data = c :: rest :=
      stripWs_eq_self _ (fun x hx => digit_not_pySpace x (hd x hx))
    unfold pyInt
    rw [hs]
    dsimp only
    rw [if_neg (digit_ne c '-' hc (by decide)), if_neg (digit_ne c '+' hc (by decide))]
    dsimp only
    rw [if_neg (by simp), if_pos (by rw [List.all_eq_true]; exact hd), one_mul]

/-- C4 (amended): on legacy version strings `1.0.<d><digits>`, when `<digits>`
is nonempty `parseGATKVersion` returns major `"0.<d>"` and minor the integer
value of `<digits>`; when `<digits>` is empty the call raises (a `ValueError`
from `int("")`) instead of returning minor 0. -/
theorem c4_legacy_version (d : Char) (ds : List Char)
    (hd : d.isDigit = true) (hds : ∀ c ∈ ds, c.isDigit = true) :
    (ds ≠ [] →
      parseGATKVersion (String.mk ('1' :: '.' :: '0' :: '.' :: d :: ds)) =
        .ok ("0." ++ String.mk [d], (digitsNat ds : Int)))
    ∧ (ds = [] →
      parseGATKVersion (String.mk ('1' :: '.' :: '0' :: '.' :: d :: ds)) =
        .error "ValueError") := by
  have hm : svnMatch ('1' :: '.' :: '0' :: '.' :: d :: ds) = some (d, ds) := by
    unfold svnMatch
    dsimp only
    rw [if_pos ⟨rfl, rfl, rfl, rfl⟩, if_pos hd, takeWhile_eq_of_all _ _ hds]
  constructor
  · intro hne
    unfold parseGATKVersion
    rw [show (String.mk ('1' :: '.' :: '0' :: '.' :: d :: ds)).data =
        ('1' :: '.' :: '0' :: '.' :: d :: ds) from rfl, hm]
    dsimp only
    rw [pyInt_digits ds hne hds]
  · intro he
    subst he
    unfold parseGATKVersion
    rw [show (String.mk ['1', '.', '0', '.', d]).data =
        ('1' :: '.' :: '0' :: '.' :: d :: []) from rfl, hm]
    dsimp only
    rfl

/-- C4 witness: `"1.0.5777"` parses to `("0.5", 777)` via the theorem. -/
theorem c4_witness :
    ('5' : Char).isDigit = true ∧ (['7', '7', '7'].all Char.isDigit = true) ∧
    (['7', '7', '7'] : List Char) ≠ [] ∧
    parseGATKVersion (String.mk ['1', '.', '0', '.', '5', '7', '7', '7']) =
      .ok ("0." ++ String.mk ['5'], (digitsNat ['7', '7', '7'] : Int)) :=
  ⟨by decide, by decide, by decide,
    (c4_legacy_version '5' ['7', '7', '7'] (by decide) (by decide)).1 (by decide)⟩

/-- C4 counterexample: on `"1.0.6"` (empty digit remainder) the code raises a
`ValueError` instead of returning `("0.6", 0)` as the claim states. -/
theorem c4_counterexample :
    parseGATKVersion "1.0.6" = .error "ValueError" ∧
    (Except.error "ValueError" : Except String (String × Int)) ≠ .ok ("0.6", 0) :=
  ⟨rfl, fun h => Except.noConfusion h⟩

/-- C5 (amended): on strings `<d>.<d+>-<d+>-<hash>` whose trailing hash
consists of word characters (`[A-Za-z0-9_]`, possibly empty — the source
pattern is `\w*$`), `parseGATKVersion` returns major `"<d>.<d+>"` and minor
the middle integer group.  A hash containing any other character does not
match (see the counterexample). -/
theorem c5_modern_version (d : Char) (ds1 ds2 w : List Char)
    (hd : d.isDigit = true) (h1 : ds1 ≠ []) (hds1 : ∀ c ∈ ds1, c.isDigit = true)
    (h2 : ds2 ≠ []) (hds2 : ∀ c ∈ ds2, c.isDigit = true)
    (hw : ∀ c ∈ w, isWordChar c = true) :
    parseGATKVersion (String.mk (d :: '.' :: (ds1 ++ '-' :: (ds2 ++ '-' :: w)))) =
      .ok (String.mk [d] ++ "." ++ String.mk ds1, (digitsNat ds2 : Int)) := by
  have hsvn : svnMatch (d :: '.' :: (ds1 ++ '-' :: (ds2 ++ '-' :: w))) = none := by
    rcases ds1 with _ | ⟨c1, cs⟩
    · exact absurd rfl h1
    · rcases cs with _ | ⟨c2, cs2⟩
      · rw [List.cons_append, List.nil_append]
        unfold svnMatch
        dsimp only
        rw [if_neg (fun h => absurd h.2.2.2 (by decide))]
      · rw [List.cons_append, List.cons_append]
        unfold svnMatch
        dsimp only
        rw [if_neg (fun h =>
          absurd h.2.2.2 (digit_ne c2 '.' (hds1 c2 (by simp)) (by decide)))]
  have hgit : gitFullMatch (d :: '.' :: (ds1 ++ '-' :: (ds2 ++ '-' :: w))) =
      some (d, ds1, ds2) := by
    unfold gitFullMatch
    dsimp only
    rw [if_pos ⟨hd, rfl⟩]
    rw [takeWhile_append_not Char.isDigit ds1 '-' _ hds1 (by decide),
      dropWhile_append_not Char.isDigit ds1 '-' _ hds1 (by decide)]
    rw [if_neg (by simp [h1])]
    dsimp only
    rw [if_pos rfl]
    rw [takeWhile_append_not Char.isDigit ds2 '-' _ hds2 (by decide),
      dropWhile_append_not Char.isDigit ds2 '-' _ hds2 (by decide)]
    rw [if_neg (by simp [h2])]
    dsimp only
    rw [if_pos rfl, dropWhile_eq_nil_of_all isWordChar w hw]
    rfl
  unfold parseGATKVersion
  rw [show (String.mk (d :: '.' :: (ds1 ++ '-' :: (ds2 ++ '-' :: w)))).data =
      (d :: '.' :: (ds1 ++ '-' :: (ds2 ++ '-' :: w))) from rfl, hsvn]
  dsimp only
  rw [hgit]
  dsimp only
  rw [pyInt_digits ds2 h2 hds2]

/-- C5 witness: `"1.3-33-g1bfe280"` parses to `("1.3", 33)` via the theorem. -/
theorem c5_witness :
    ('1' : Char).isDigit = true ∧ (['3'] : List Char) ≠ [] ∧
    (['3'].all Char.isDigit = true) ∧ (['3', '3'] : List Char) ≠ [] ∧
    (['3', '3'].all Char.isDigit = true) ∧
    ("g1bfe280".data.all isWordChar = true) ∧
    parseGATKVersion (String.mk
        ('1' :: '.' :: (['3'] ++ '-' :: (['3', '3'] ++ '-' :: "g1bfe280".data)))) =
      .ok (String.mk ['1'] ++ "." ++ String.mk ['3'], (digitsNat ['3', '3'] : Int)) :=
  ⟨by decide, by decide, by decide, by decide, by decide, by decide,
    c5_modern_version '1' ['3'] ['3', '3'] "g1bfe280".data (by decide) (by decide)
      (by decide) (by decide) (by decide) (by decide)⟩

/-- C5 counterexample: the hash `"x-y"` is non-empty and arbitrary but not all
word characters, so `"1.4-1-x-y"` yields `("unknown", 0)` and not the
`("1.4", 1)` the claim states. -/
theorem c5_counterexample :
    parseGATKVersion "1.4-1-x-y" = .ok ("unknown", 0) ∧
    (("unknown", (0 : Int)) : String × Int) ≠ ("1.4", 1) :=
  ⟨rfl, by simp⟩


/-- C1 (code bug): with the dev-build exclusion enabled, `passesFilters`
rejects `c1Record` even though its `phone-home-type` text is `"STANDARD"` and
not `"DEV"`: in `eltTagEquals` the parenthesisation
`(text == value or (startsWith == None or ...))` makes the condition true
whenever the child exists, so the `value` argument `"DEV"` is ignored.  The
claim (reject iff the text is exactly `"DEV"`) states the evident intent of
`eltTagEquals`; the code's boolean expression is the slip. -/
theorem c1_dev_filter_bug :
    passesFilters true none none ⟨2011, 1, 1⟩ c1Record = .ok false ∧
    (c1Record.find "argument-collection").bind
        (fun ac => ac.find "phone-home-type") =
      some (Elt.mk "phone-home-type" (some "STANDARD") []) ∧
    (some "STANDARD" : Option String) ≠ some "DEV" := by
  refine ⟨rfl, rfl, by simp⟩

/-- C2 counterexample: decoding a record with no `exception` child binds the
exception fields to the missing-value sentinel `"NA"`, not to
`("MISSING", _, _, "success")` as the claim states. -/
theorem c2_counterexample :
    c2Record.children.all (fun c => c.tag != "exception") = true ∧
    (match decode [] c2Record with
     | .ok b =>
       List.lookup "exception-msg" b = some (some "NA") ∧
       List.lookup "is-user-exception" b = some (some "NA") ∧
       List.lookup "stacktrace" b = some (some "NA") ∧
       List.lookup "run-status" b = some (some "NA")
     | .error _ => False) ∧
    (some "NA" : Option String) ≠ some "MISSING" ∧
    (some "NA" : Option String) ≠ some "success" := by
  refine ⟨by decide, ⟨rfl, rfl, rfl, rfl⟩, by simp, by simp⟩

/-- C3 counterexample: in the exception-digest mode a record whose decode
raises aborts the stream (no per-record catch): the stream
`[c3BadRecord, c3GoodRecord]` errors out and the processable second record is
never reached. -/
theorem c3_counterexample :
    decode [] c3BadRecord = .error "ValueError" ∧
    excProcessStream [] [c3BadRecord, c3GoodRecord] [] = .error "ValueError" ∧
    (decode [] c3GoodRecord).isOk = true := by
  refine ⟨rfl, rfl, rfl⟩

/-- C3 (amended): decode errors are caught per record only in the SQL-insert
sink — which logs `("Skipping excepting record", "unknown")` (the identifier
is `'unknown'` because the decode failed before the id was read) and
continues — and in the table sink — which logs
`'Failed to convert to table'` (the record, not its identifier) and
continues; the exception-digest and summary sinks have no per-record catch,
so a record whose decode raises (for the digest, one carrying an exception
element) aborts processing of the remaining stream there. -/
theorem c3_amended (versions : Versions) (r : Elt) (rest : List Elt)
    (st : SqlState) (stT : TableState) (acc acc2 : List Bindings) (e : String)
    (hdec : decode versions r = .error e) :
    sqlProcessStream versions (r :: rest) st =
      sqlProcessStream versions rest
        { st with log := st.log ++ [("Skipping excepting record", "unknown")] } ∧
    tableProcessStream versions (r :: rest) stT =
      tableProcessStream versions rest
        { stT with errlog := stT.errlog ++ ["Failed to convert to table"] } ∧
    (r.children.any eltIsException = true →
      excProcessStream versions (r :: rest) acc = .error e) ∧
    sumProcessStream versions (r :: rest) acc2 = .error e := by
  refine ⟨?_, ?_, ?_, ?_⟩
  · show sqlProcessStream versions rest
        (InsertRecordIntoTable.processRecord versions r st) = _
    unfold InsertRecordIntoTable.processRecord
    rw [hdec]
  · show tableProcessStream versions rest
        (RecordAsTable.processRecord versions r stT) = _
    unfold RecordAsTable.processRecord
    rw [hdec]
  · intro hexc
    show (ExceptionReport.processRecord versions r acc >>= fun s =>
      excProcessStream versions rest s) = .error e
    unfold ExceptionReport.processRecord
    rw [if_pos hexc, hdec]
    rfl
  · show (SummaryReport.processRecord versions r acc2 >>= fun s =>
      sumProcessStream versions rest s) = .error e
    unfold SummaryReport.processRecord
    rw [hdec]
    rfl

/-- C3 witness: the amended theorem applied to the concrete bad record
followed by a good one. -/
theorem c3_witness :
    decode [] c3BadRecord = .error "ValueError" ∧
    c3BadRecord.children.any eltIsException = true ∧
    (sqlProcessStream [] [c3BadRecord, c3GoodRecord] ⟨[], []⟩ =
      sqlProcessStream [] [c3GoodRecord]
        ⟨[], [("Skipping excepting record", "unknown")]⟩ ∧
     tableProcessStream [] [c3BadRecord, c3GoodRecord] ⟨[], []⟩ =
      tableProcessStream [] [c3GoodRecord] ⟨[], ["Failed to convert to table"]⟩ ∧
     excProcessStream [] [c3BadRecord, c3GoodRecord] [] = .error "ValueError" ∧
     sumProcessStream [] [c3BadRecord, c3GoodRecord] [] = .error "ValueError") := by
  have h := c3_amended [] c3BadRecord [c3GoodRecord] ⟨[], []⟩ ⟨[], []⟩ [] []
    "ValueError" rfl
  exact ⟨rfl, rfl, h.1, h.2.1, h.2.2.1 rfl, h.2.2.2⟩

/-- C9: release-type classification — a version absent from the table is
`"unknown"`; three tags collapse to `"gatk.git"`; two tags give `"stable"`
when `'stable'` is among them and raise otherwise; one tag is returned as is;
more than three tags raise rather than defaulting. -/
theorem c9_release_type :
    (∀ (versions : Versions) (e : Elt) (t : String),
      e.text = some t → List.lookup t versions = none →
      formatReleaseType versions e = .ok (some "unknown")) ∧
    (∀ (v : String) (types : List (Option String)),
      types.length = 3 → resolveType v types = .ok (some "gatk.git")) ∧
    (∀ (v : String) (types : List (Option String)),
      types.length = 2 → some "stable" ∈ types →
      resolveType v types = .ok (some "stable")) ∧
    (∀ (v : String) (types : List (Option String)),
      types.length = 2 → some "stable" ∉ types →
      resolveType v types = .error "Unexpected combination") ∧
    (∀ (v : String) (t : Option String), resolveType v [t] = .ok t) ∧
    (∀ (v : String) (types : List (Option String)),
      types.length > 3 → resolveType v types = .error "Unexpected number of types") := by
  refine ⟨?_, ?_, ?_, ?_, ?_, ?_⟩
  · intro versions e t ht hl
    unfold formatReleaseType
    rw [ht]
    dsimp only
    rw [hl]
  · intro v types h3
    unfold resolveType
    rw [if_neg (by omega), if_pos h3]
  · intro v types h2 hs
    unfold resolveType
    rw [if_neg (by omega), if_neg (by omega), if_pos h2, if_pos hs]
  · intro v types h2 hs
    unfold resolveType
    rw [if_neg (by omega), if_neg (by omega), if_pos h2, if_neg hs]
  · intro v t
    rfl
  · intro v types h4
    unfold resolveType
    rw [if_pos h4]

/-- C9 witness: each classification case evaluated at concrete tag lists via
the theorem. -/
theorem c9_witness :
    formatReleaseType [] (Elt.mk "svn-version" (some "1.9") []) = .ok (some "unknown") ∧
    resolveType "v" [some "unstable", some "stable", some "gatk.git"] =
      .ok (some "gatk.git") ∧
    resolveType "v" [some "unstable", some "stable"] = .ok (some "stable") ∧
    resolveType "v" [some "unstable", some "gatk.git"] =
      .error "Unexpected combination" ∧
    resolveType "v" [some "unstable"] = .ok (some "unstable") ∧
    resolveType "v" [some "a", some "b", some "c", some "d"] =
      .error "Unexpected number of types" :=
  ⟨c9_release_type.1 [] _ "1.9" rfl rfl,
   c9_release_type.2.1 "v" _ rfl,
   c9_release_type.2.2.1 "v" _ rfl (by decide),
   c9_release_type.2.2.2.1 "v" _ rfl (by decide),
   c9_release_type.2.2.2.2.1 "v" _,
   c9_release_type.2.2.2.2.2 "v" _ (by decide)⟩

/-- Generalisation of the C10 cutoff property over a running counter. -/
theorem mainLoop_cutoff_aux (idOpt : Option String) (N : Int) (hN : 0 < N) :
    ∀ (reports : List Elt) (counter : Int),
      (∀ r ∈ reports, (r.find "id").isSome) →
      0 ≤ counter → counter ≤ N →
      ((reports.filter (recordMatches idOpt)).length : Int) + counter > N →
      mainLoop idOpt (some N) reports counter = .ok (N + 1) := by
  intro reports
  induction reports with
  | nil =>
    intro counter _ h0 hle hcount
    simp at hcount
    omega
  | cons r rest ih =>
    intro counter hids h0 hle hcount
    obtain ⟨e, he⟩ := Option.isSome_iff_exists.mp (hids r (by simp))
    have hmatch : recordMatches idOpt r = (idOpt == none || e.text == idOpt) := by
      unfold recordMatches
      cases idOpt with
      | none => rfl
      | some i => rw [he]; rfl
    unfold mainLoop
    rw [he]
    dsimp only
    by_cases hm : (idOpt == none || e.text == idOpt) = true
    · rw [if_pos hm]
      by_cases hcut : cutoffHit (some N) (counter + 1) = true
      · rw [if_pos hcut]
        unfold cutoffHit at hcut
        simp only [Bool.and_eq_true, decide_eq_true_eq] at hcut
        have hc : counter + 1 = N + 1 := by omega
        rw [hc]
      · rw [if_neg hcut]
        unfold cutoffHit at hcut
        simp only [Bool.and_eq_true, decide_eq_true_eq, not_and, not_lt] at hcut
        have hlt : counter + 1 ≤ N := hcut hN
        apply ih (counter + 1) (fun x hx => hids x (List.mem_cons_of_mem r hx))
          (by omega) hlt
        rw [List.filter_cons, hmatch, if_pos hm] at hcount
        simp only [List.length_cons] at hcount
        push_cast at hcount ⊢
        omega
    · rw [if_neg hm]
      apply ih counter (fun x hx => hids x (List.mem_cons_of_mem r hx)) h0 hle
      rw [List.filter_cons, hmatch, if_neg hm] at hcount
      exact hcount

/-- C10: with a positive maximum-record cutoff `N` and more than `N` records
matching the id filter (each record carrying an id child), the driver loop
calls the handler on exactly `N + 1` records before stopping, because the
cutoff `counter > maxRecords` is tested only after the counter was
incremented for an already-processed record. -/
theorem c10_cutoff (idOpt : Option String) (N : Int) (reports : List Elt)
    (hN : 0 < N) (hids : ∀ r ∈ reports, (r.find "id").isSome)
    (hcount : ((reports.filter (recordMatches idOpt)).length : Int) > N) :
    mainLoop idOpt (some N) reports 0 = .ok (N + 1) :=
  mainLoop_cutoff_aux idOpt N hN reports 0 hids le_rfl (by omega) (by omega)

/-- C10 witness: three records under cutoff 1 — exactly 2 are processed. -/
theorem c10_witness :
    (0 : Int) < 1 ∧
    ([Elt.mk "GATK-run-report" none [Elt.mk "id" (some "a") []],
      Elt.mk "GATK-run-report" none [Elt.mk "id" (some "b") []],
      Elt.mk "GATK-run-report" none [Elt.mk "id" (some "c") []]].all
        (fun r => (r.find "id").isSome) = true) ∧
    mainLoop none (some 1)
      [Elt.mk "GATK-run-report" none [Elt.mk "id" (some "a") []],
       Elt.mk "GATK-run-report" none [Elt.mk "id" (some "b") []],
       Elt.mk "GATK-run-report" none [Elt.mk "id" (some "c") []]] 0 = .ok 2 :=
  ⟨by decide, by decide,
    c10_cutoff none 1 _ (by decide) (by decide) (by decide)⟩


/-- Lawful inequality of strings transfers to their boolean equality. -/
theorem beq_false_of_ne (a b : String) (h : a ≠ b) : (a == b) = false := by
  cases hb : a == b with
  | true => exact absurd (eq_of_beq hb) h
  | false => rfl

/-- Unfolding of association-list lookup over a cons cell. -/
theorem lookup_cons (k k1 : String) (v : Option String) (rest : Bindings) :
    List.lookup k ((k1, v) :: rest) =
      if k = k1 then some v else List.lookup k rest := by
  by_cases h : k = k1
  · subst h
    rw [if_pos rfl]
    unfold List.lookup
    rw [beq_self_eq_true]
  · rw [if_neg h]
    conv_lhs => unfold List.lookup
    rw [beq_false_of_ne k k1 h]

/-- Dict insertion binds the inserted key. -/
theorem lookup_bindInsert_self (bs : Bindings) (k : String) (v : Option String) :
    List.lookup k (bindInsert bs k v) = some v := by
  induction bs with
  | nil => rw [show bindInsert [] k v = [(k, v)] from rfl, lookup_cons, if_pos rfl]
  | cons p rest ih =>
    obtain ⟨k1, v1⟩ := p
    unfold bindInsert
    by_cases h : k1 = k
    · rw [if_pos h, lookup_cons, if_pos rfl]
    · rw [if_neg h, lookup_cons, if_neg (Ne.symm h)]
      exact ih

/-- Dict insertion leaves other keys unchanged. -/
theorem lookup_bindInsert_other (bs : Bindings) (k k1 : String) (v : Option String)
    (h : k1 ≠ k) : List.lookup k1 (bindInsert bs k v) = List.lookup k1 bs := by
  induction bs with
  | nil =>
    rw [show bindInsert [] k v = [(k, v)] from rfl, lookup_cons, if_neg h]
  | cons p rest ih =>
    obtain ⟨k2, v2⟩ := p
    unfold bindInsert
    by_cases h1 : k2 = k
    · subst h1
      simp [lookup_cons, h]
    · rw [if_neg h1]
      simp only [lookup_cons]
      by_cases h2 : k1 = k2
      · simp [h2]
      · simp only [if_neg h2]
        exact ih

/-- Characterisation of the missing-data loop: a key already bound keeps its
value, an unbound declared key receives the sentinel, and an undeclared
unbound key stays unbound. -/
theorem lookup_fillMissing (fs : List String) :
    ∀ (bs : Bindings) (k : String),
      List.lookup k (fillMissing bs fs) =
        (match List.lookup k bs with
         | some v => some v
         | none => if k ∈ fs then some (some MISSING_VALUE) else none) := by
  induction fs with
  | nil =>
    intro bs k
    cases h : List.lookup k bs <;> simp [fillMissing, h]
  | cons f rest ih =>
    intro bs k
    show List.lookup k (fillMissing
      (if (List.lookup f bs).isSome then bs else bindInsert bs f (some MISSING_VALUE))
      rest) = _
    by_cases hkf : k = f
    · subst hkf
      cases hb : List.lookup k bs with
      | some v =>
        rw [if_pos (by rfl), ih bs k, hb]
      | none =>
        rw [if_neg (by simp), ih, lookup_bindInsert_self]
        simp
    · have hbs1 : List.lookup k
          (if (List.lookup f bs).isSome then bs else bindInsert bs f (some MISSING_VALUE)) =
          List.lookup k bs := by
        by_cases hf : (List.lookup f bs).isSome
        · rw [if_pos hf]
        · rw [if_neg hf, lookup_bindInsert_other bs f k _ hkf]
      rw [ih, hbs1]
      cases hb : List.lookup k bs with
      | some v => rfl
      | none => simp [List.mem_cons, hkf]

/-- C6: decode never returns a partial mapping — for every declared field of
the decoder, a successful decode binds it (so the domain of the result
contains the whole declared field list), and any declared field that the
child scan did not derive from the record is bound to the missing-value
sentinel. -/
theorem c6_decode_total (versions : Versions) (r : Elt) (b bs : Bindings) (f : String)
    (hf : f ∈ decoderFields)
    (hbs : decodeChildren versions [] r.children = .ok bs)
    (hd : decode versions r = .ok b) :
    (List.lookup f b).isSome = true ∧
    (List.lookup f bs = none → List.lookup f b = some (some MISSING_VALUE)) := by
  unfold decode at hd
  rw [hbs] at hd
  dsimp only at hd
  injection hd with hb
  subst hb
  rw [lookup_fillMissing]
  constructor
  · cases hl : List.lookup f bs <;> simp [hf]
  · intro hnone
    rw [hnone]
    simp [hf]

/-- C6 witness: decoding `c6Record` yields `c6Full`, and the undeclared-in-scan
field `run-status` is present, bound to the sentinel, via the theorem. -/
theorem c6_witness :
    "run-status" ∈ decoderFields ∧
    decodeChildren [] [] c6Record.children = .ok c6Partial ∧
    decode [] c6Record = .ok c6Full ∧
    (List.lookup "run-status" c6Full).isSome = true ∧
    List.lookup "run-status" c6Full = some (some MISSING_VALUE) :=
  have h := c6_decode_total [] c6Record c6Full c6Partial "run-status" (by decide) rfl rfl
  ⟨by decide, rfl, rfl, h.1, h.2 rfl⟩

/-- Generic transport of association-list lookup through a map over values. -/
theorem lookup_cons_gen {β : Type} (k k1 : String) (v : β) (rest : List (String × β)) :
    List.lookup k ((k1, v) :: rest) =
      if k = k1 then some v else List.lookup k rest := by
  by_cases h : k = k1
  · subst h
    rw [if_pos rfl]
    unfold List.lookup
    rw [beq_self_eq_true]
  · rw [if_neg h]
    conv_lhs => unfold List.lookup
    rw [beq_false_of_ne k k1 h]

/-- Mapping the values of an association list commutes with lookup. -/
theorem lookup_map_snd {β γ : Type} (g : β → γ) :
    ∀ (l : List (String × β)) (a : String) (v : β),
      List.lookup a l = some v →
      List.lookup a (l.map (fun p => (p.1, g p.2))) = some (g v) := by
  intro l
  induction l with
  | nil => intro a v h; exact Option.noConfusion h
  | cons p rest ih =>
    intro a v h
    obtain ⟨k1, v1⟩ := p
    rw [List.map_cons]
    rw [lookup_cons_gen] at h
    by_cases ha : a = k1
    · rw [if_pos ha] at h
      show List.lookup a ((k1, g v1) :: _) = _
      rw [lookup_cons_gen, if_pos ha, Option.some.inj h]
    · rw [if_neg ha] at h
      show List.lookup a ((k1, g v1) :: _) = _
      rw [lookup_cons_gen, if_neg ha]
      exact ih a v h

/-- A successful lookup names a member of the association list. -/
theorem mem_of_lookup {β : Type} :
    ∀ (l : List (String × β)) (a : String) (v : β),
      List.lookup a l = some v → (a, v) ∈ l := by
  intro l
  induction l with
  | nil => intro a v h; exact Option.noConfusion h
  | cons p rest ih =>
    intro a v h
    obtain ⟨k1, v1⟩ := p
    rw [lookup_cons_gen] at h
    by_cases ha : a = k1
    · rw [if_pos ha] at h
      injection h with h
      subst h
      subst ha
      exact List.mem_cons_self _ _
    · rw [if_neg ha] at h
      exact List.mem_cons_of_mem _ (ih a v h)

/-- The formatter table's tag-to-field-names shape. -/
theorem table_shape (versions : Versions) :
    (formatterTable versions).map (fun p => (p.1, p.2.map Prod.fst)) =
      formatterFieldNames := rfl

/-- No registration other than the `exception` one writes any of the four
exception output fields. -/
theorem nonexc_fields :
    ∀ p ∈ formatterFieldNames, p.1 ≠ "exception" →
      ∀ k ∈ ["exception-msg", "stacktrace", "is-user-exception", "run-status"],
        k ∉ p.2 := by decide

/-- Applying a tag's transforms changes only that tag's output fields. -/
theorem applyFormats_lookup (e : Elt) (k : String) :
    ∀ (ffs : List (String × Fmt)) (bs bs1 : Bindings),
      applyFormats e bs ffs = .ok bs1 → k ∉ ffs.map Prod.fst →
      List.lookup k bs1 = List.lookup k bs := by
  intro ffs
  induction ffs with
  | nil =>
    intro bs bs1 h _
    injection h with h
    rw [h]
  | cons p rest ih =>
    intro bs bs1 h hk
    obtain ⟨f, fn⟩ := p
    unfold applyFormats at h
    cases hfn : fn e with
    | error err => rw [hfn] at h; exact Except.noConfusion h
    | ok v =>
      rw [hfn] at h
      dsimp only at h
      have hkf : k ≠ f := by
        intro hkf
        exact hk (by rw [List.map_cons, hkf]; exact List.mem_cons_self _ _)
      rw [ih (bindInsert bs f v) bs1 h
          (fun hm => hk (by rw [List.map_cons]; exact List.mem_cons_of_mem _ hm)),
        lookup_bindInsert_other bs f k v hkf]

/-- Scanning children none of which is an `exception` element leaves the four
exception output fields unbound. -/
theorem decodeChildren_preserve (versions : Versions) (k : String)
    (hk : k ∈ ["exception-msg", "stacktrace", "is-user-exception", "run-status"]) :
    ∀ (children : List Elt) (bs bs1 : Bindings),
      (∀ c ∈ children, c.tag ≠ "exception") →
      decodeChildren versions bs children = .ok bs1 →
      List.lookup k bs1 = List.lookup k bs := by
  intro children
  induction children with
  | nil =>
    intro bs bs1 _ h
    injection h with h
    rw [h]
  | cons c rest ih =>
    intro bs bs1 hch h
    unfold decodeChildren at h
    cases hl : List.lookup c.tag (formatterTable versions) with
    | none =>
      rw [hl] at h
      exact ih bs bs1 (fun x hx => hch x (List.mem_cons_of_mem c hx)) h
    | some ffs =>
      rw [hl] at h
      dsimp only at h
      cases ha : applyFormats c bs ffs with
      | error e => rw [ha] at h; exact Except.noConfusion h
      | ok bs2 =>
        rw [ha] at h
        have hnames : List.lookup c.tag formatterFieldNames = some (ffs.map Prod.fst) := by
          rw [← table_shape versions]
          exact lookup_map_snd (fun l => l.map Prod.fst) (formatterTable versions)
            c.tag ffs hl
        have hnot := nonexc_fields (c.tag, ffs.map Prod.fst)
          (mem_of_lookup formatterFieldNames c.tag (ffs.map Prod.fst) hnames)
          (hch c (List.mem_cons_self c rest)) k hk
        rw [ih bs2 bs1 (fun x hx => hch x (List.mem_cons_of_mem c hx)) h,
          applyFormats_lookup c k ffs bs bs2 ha hnot]

/-- C2 (amended): decoding a record with no `exception` child binds the four
exception-derived fields (`exception-msg`, `stacktrace`, `is-user-exception`,
`run-status`) to the missing-value sentinel `"NA"`; the
`("MISSING", "NA", "NA", "success")` defaults belong to `parseException`,
which only runs when an exception element is present. -/
theorem c2_missing_exception (versions : Versions) (r : Elt) (b : Bindings)
    (hch : ∀ c ∈ r.children, c.tag ≠ "exception")
    (hd : decode versions r = .ok b) :
    List.lookup "exception-msg" b = some (some MISSING_VALUE) ∧
    List.lookup "stacktrace" b = some (some MISSING_VALUE) ∧
    List.lookup "is-user-exception" b = some (some MISSING_VALUE) ∧
    List.lookup "run-status" b = some (some MISSING_VALUE) := by
  unfold decode at hd
  cases hbs : decodeChildren versions [] r.children with
  | error e => rw [hbs] at hd; exact Except.noConfusion hd
  | ok bs =>
    rw [hbs] at hd
    dsimp only at hd
    injection hd with hb
    subst hb
    refine ⟨?_, ?_, ?_, ?_⟩ <;>
      (rw [lookup_fillMissing,
        decodeChildren_preserve versions _ (by decide) r.children [] bs hch hbs]
       decide)

/-- C2 witness: the amended theorem evaluated at the concrete record without
an exception child. -/
theorem c2_witness :
    decode [] c2Record = .ok c2Full ∧
    List.lookup "exception-msg" c2Full = some (some MISSING_VALUE) ∧
    List.lookup "stacktrace" c2Full = some (some MISSING_VALUE) ∧
    List.lookup "is-user-exception" c2Full = some (some MISSING_VALUE) ∧
    List.lookup "run-status" c2Full = some (some MISSING_VALUE) :=
  have h := c2_missing_exception [] c2Record c2Full (by decide) rfl
  ⟨rfl, h.1, h.2.1, h.2.2.1, h.2.2.2⟩


/-- Dict access succeeds exactly on present keys. -/
theorem pyGet_ok (ex : Bindings) (k : String) (v : Option String) :
    pyGet ex k = .ok v ↔ List.lookup k ex = some v := by
  unfold pyGet
  cases h : List.lookup k ex with
  | none =>
    constructor
    · intro hh; exact Except.noConfusion hh
    · intro hh; exact Option.noConfusion hh
  | some w =>
    constructor
    · intro hh; injection hh with hh; rw [hh]
    · intro hh; injection hh with hh; rw [hh]

/-- Membership after a set-style add. -/
theorem setAdd_mem {α : Type} [DecidableEq α] (l : List α) (x v : α) :
    v ∈ setAdd l x ↔ v ∈ l ∨ v = x := by
  unfold setAdd
  by_cases h : x ∈ l
  · rw [if_pos h]
    constructor
    · exact Or.inl
    · intro hv
      rcases hv with hv | hv
      · exact hv
      · rw [hv]; exact h
  · rw [if_neg h]
    simp [List.mem_append]

/-- Characterisation of a fresh `CommonException`: count 1, signature and id
taken from the record. -/
theorem ofEx_spec (ex : Bindings) (c : CommonException)
    (h : CommonException.ofEx ex = .ok c) :
    c.counts = 1 ∧ List.lookup "stacktrace" ex = some c.atSig ∧
    ∃ i, List.lookup "id" ex = some i ∧ c.ids = [i] := by
  unfold CommonException.ofEx at h
  simp only [bind, Except.bind] at h
  cases h1 : pyGet ex "exception-msg" with
  | error e => rw [h1] at h; exact Except.noConfusion h
  | ok msg =>
  rw [h1] at h; dsimp only at h
  cases h2 : pyGet ex "stacktrace" with
  | error e => rw [h2] at h; exact Except.noConfusion h
  | ok a =>
  rw [h2] at h; dsimp only at h
  cases h3 : pyGet ex "svn-version" with
  | error e => rw [h3] at h; exact Except.noConfusion h
  | ok svn =>
  rw [h3] at h; dsimp only at h
  cases h4 : pyGet ex "user-name" with
  | error e => rw [h4] at h; exact Except.noConfusion h
  | ok user =>
  rw [h4] at h; dsimp only at h
  cases h5 : pyGet ex "is-user-exception" with
  | error e => rw [h5] at h; exact Except.noConfusion h
  | ok ue =>
  rw [h5] at h; dsimp only at h
  cases h6 : pyGet ex "end-time" with
  | error e => rw [h6] at h; exact Except.noConfusion h
  | ok et =>
  rw [h6] at h; dsimp only at h
  cases h7 : decodeTimeOpt et with
  | error e => rw [h7] at h; exact Except.noConfusion h
  | ok t =>
  rw [h7] at h; dsimp only at h
  cases h8 : pyGet ex "walker-name" with
  | error e => rw [h8] at h; exact Except.noConfusion h
  | ok w =>
  rw [h8] at h; dsimp only at h
  cases h9 : pyGet ex "id" with
  | error e => rw [h9] at h; exact Except.noConfusion h
  | ok i =>
  rw [h9] at h; dsimp only at h
  injection h with h
  subst h
  exact ⟨rfl, (pyGet_ok ex "stacktrace" a).mp h2, i, (pyGet_ok ex "id" i).mp h9, rfl⟩

/-- Characterisation of `CommonException.update`: signature kept, count
incremented, the record's id added to the id set. -/
theorem update_spec (c : CommonException) (ex : Bindings) (c1 : CommonException)
    (h : c.update ex = .ok c1) :
    c1.atSig = c.atSig ∧ c1.counts = c.counts + 1 ∧
    ∃ i, List.lookup "id" ex = some i ∧ c1.ids = setAdd c.ids i := by
  unfold CommonException.update at h
  simp only [bind, Except.bind] at h
  cases h1 : pyGet ex "exception-msg" with
  | error e => rw [h1] at h; exact Except.noConfusion h
  | ok msg =>
  rw [h1] at h; dsimp only at h
  cases h2 : pyGet ex "svn-version" with
  | error e => rw [h2] at h; exact Except.noConfusion h
  | ok svn =>
  rw [h2] at h; dsimp only at h
  cases h3 : pyGet ex "user-name" with
  | error e => rw [h3] at h; exact Except.noConfusion h
  | ok user =>
  rw [h3] at h; dsimp only at h
  cases h4 : pyGet ex "walker-name" with
  | error e => rw [h4] at h; exact Except.noConfusion h
  | ok w =>
  rw [h4] at h; dsimp only at h
  cases h5 : pyGet ex "end-time" with
  | error e => rw [h5] at h; exact Except.noConfusion h
  | ok et =>
  rw [h5] at h; dsimp only at h
  cases h6 : decodeTimeOpt et with
  | error e => rw [h6] at h; exact Except.noConfusion h
  | ok t =>
  rw [h6] at h; dsimp only at h
  cases h7 : pyGet ex "id" with
  | error e => rw [h7] at h; exact Except.noConfusion h
  | ok i =>
  rw [h7] at h; dsimp only at h
  injection h with h
  subst h
  exact ⟨rfl, rfl, i, (pyGet_ok ex "id" i).mp h7, rfl⟩

/-- Case analysis of `addToCommons`: either no group matches the record's
signature and a fresh group is appended, or the first matching group is
updated in place. -/
theorem addToCommons_cases :
    ∀ (cs : List CommonException) (ex : Bindings) (cs1 : List CommonException),
      addToCommons cs ex = .ok cs1 →
      ∃ s, List.lookup "stacktrace" ex = some s ∧
        (((∀ c ∈ cs, c.atSig ≠ s) ∧
          ∃ cN, CommonException.ofEx ex = .ok cN ∧ cN.atSig = s ∧ cs1 = cs ++ [cN]) ∨
         (∃ pre c post cU, cs = pre ++ c :: post ∧ (∀ p ∈ pre, p.atSig ≠ s) ∧
          c.atSig = s ∧ c.update ex = .ok cU ∧ cs1 = pre ++ cU :: post)) := by
  intro cs
  induction cs with
  | nil =>
    intro ex cs1 h
    unfold addToCommons at h
    cases ho : CommonException.ofEx ex with
    | error e => rw [ho] at h; exact Except.noConfusion h
    | ok cN =>
      rw [ho] at h
      injection h with h
      refine ⟨cN.atSig, (ofEx_spec ex cN ho).2.1, Or.inl ⟨by simp, cN, rfl, rfl, ?_⟩⟩
      rw [← h]
      rfl
  | cons c0 rest ih =>
    intro ex cs1 h
    unfold addToCommons at h
    cases hg : pyGet ex "stacktrace" with
    | error e => rw [hg] at h; exact Except.noConfusion h
    | ok s =>
      rw [hg] at h
      dsimp only at h
      have hlook := (pyGet_ok ex "stacktrace" s).mp hg
      by_cases heq : c0.atSig = s
      · rw [if_pos heq] at h
        cases hu : c0.update ex with
        | error e => rw [hu] at h; exact Except.noConfusion h
        | ok cU =>
          rw [hu] at h
          injection h with h
          exact ⟨s, hlook,
            Or.inr ⟨[], c0, rest, cU, rfl, by simp, heq, hu, by rw [← h]; rfl⟩⟩
      · rw [if_neg heq] at h
        cases hr : addToCommons rest ex with
        | error e => rw [hr] at h; exact Except.noConfusion h
        | ok rest1 =>
          rw [hr] at h
          injection h with h
          obtain ⟨s', hs', hcase⟩ := ih ex rest1 hr
          have hss : s' = s := by
            rw [hlook] at hs'
            exact (Option.some.inj hs').symm
          subst hss
          refine ⟨s', hlook, ?_⟩
          rcases hcase with ⟨hall, cN, hof, hsig, hrest1⟩ |
            ⟨pre, c, post, cU, hsplit, hpre, hsig, hup, hrest1⟩
          · refine Or.inl ⟨?_, cN, hof, hsig, ?_⟩
            · intro c hc
              rcases List.mem_cons.mp hc with rfl | hc
              · exact heq
              · exact hall c hc
            · rw [← h, hrest1]
              rfl
          · refine Or.inr ⟨c0 :: pre, c, post, cU, ?_, ?_, hsig, hup, ?_⟩
            · rw [List.cons_append, hsplit]
            · intro p hp
              rcases List.mem_cons.mp hp with rfl | hp
              · exact heq
              · exact hpre p hp
            · rw [← h, hrest1]
              rfl

/-- One `addToCommons` step preserves the aggregation invariant. -/
theorem addToCommons_inv (processed : List Bindings) (cs cs1 : List CommonException)
    (ex : Bindings) (hinv : AggInv processed cs) (h : addToCommons cs ex = .ok cs1) :
    AggInv (processed ++ [ex]) cs1 := by
  obtain ⟨hnodup, hcnt, hcov⟩ := hinv
  obtain ⟨s, hlook, hcase⟩ := addToCommons_cases cs ex cs1 h
  rcases hcase with ⟨hall, cN, hof, hsig, hcs1⟩ |
    ⟨pre, c, post, cU, hsplit, hpre, hsig, hup, hcs1⟩
  · -- fresh signature: cs1 = cs ++ [cN]
    obtain ⟨hcN1, hcNsig, i, hid, hids⟩ := ofEx_spec ex cN hof
    -- no processed record has signature s
    have hnos : ∀ ex0 ∈ processed, List.lookup "stacktrace" ex0 ≠ some s := by
      intro ex0 hex0 hs0
      obtain ⟨c, hc, hcs⟩ := hcov ex0 hex0
      rw [hs0] at hcs
      exact hall c hc (Option.some.inj hcs).symm
    subst hcs1
    refine ⟨?_, ?_, ?_⟩
    · rw [List.map_append]
      rw [List.nodup_append]
      refine ⟨hnodup, by simp, ?_⟩
      intro a ha hb
      simp only [List.map_cons, List.map_nil, List.mem_cons, List.not_mem_nil,
        or_false] at hb
      obtain ⟨c, hc, hca⟩ := List.mem_map.mp ha
      rw [hb, hsig] at hca
      exact hall c hc hca
    · intro c hc
      rcases List.mem_append.mp hc with hc | hc
      · -- old entries: counts and ids unchanged by ex
        have hcs : c.atSig ≠ s := hall c hc
        have hpred : (fun ex0 => decide
            (List.lookup "stacktrace" ex0 = some c.atSig)) ex = false := by
          simp only [decide_eq_false_iff_not]
          rw [hlook]
          intro hcontra
          exact hcs (Option.some.inj hcontra).symm
        constructor
        · rw [List.filter_append, (hcnt c hc).1]
          simp [List.filter_cons, hpred]
        · intro v
          rw [(hcnt c hc).2 v]
          constructor
          · rintro ⟨ex0, hex0, h1, h2⟩
            exact ⟨ex0, List.mem_append_left _ hex0, h1, h2⟩
          · rintro ⟨ex0, hex0, h1, h2⟩
            rcases List.mem_append.mp hex0 with hex0 | hex0
            · exact ⟨ex0, hex0, h1, h2⟩
            · rw [List.mem_singleton.mp hex0] at h1
              rw [hlook] at h1
              exact absurd (Option.some.inj h1).symm hcs
      · -- the new entry
        rw [List.mem_singleton.mp hc]
        constructor
        · rw [hcN1, List.filter_append]
          have hempty : processed.filter (fun ex0 => decide
              (List.lookup "stacktrace" ex0 = some cN.atSig)) = [] := by
            rw [List.filter_eq_nil_iff]
            intro ex0 hex0
            simp only [decide_eq_true_eq, Bool.not_eq_true, decide_eq_false_iff_not]
            rw [hsig]
            exact hnos ex0 hex0
          rw [hempty]
          simp [List.filter_cons, hlook, hsig]
        · intro v
          rw [hids, List.mem_singleton]
          constructor
          · intro hv
            subst hv
            exact ⟨ex, List.mem_append_right _ (List.mem_singleton.mpr rfl),
              by rw [hlook, hsig], hid⟩
          · rintro ⟨ex0, hex0, h1, h2⟩
            rcases List.mem_append.mp hex0 with hex0 | hex0
            · rw [hsig] at h1
              exact absurd h1 (hnos ex0 hex0)
            · rw [List.mem_singleton.mp hex0] at h2
              rw [hid] at h2
              exact (Option.some.inj h2).symm
    · intro ex0 hex0
      rcases List.mem_append.mp hex0 with hex0 | hex0
      · obtain ⟨c, hc, hcs⟩ := hcov ex0 hex0
        exact ⟨c, List.mem_append_left _ hc, hcs⟩
      · rw [List.mem_singleton.mp hex0]
        exact ⟨cN, List.mem_append_right _ (List.mem_singleton.mpr rfl),
          by rw [hlook, hsig]⟩
  · -- existing signature: cs = pre ++ c :: post, cs1 = pre ++ cU :: post
    obtain ⟨hUsig, hUcnt, i, hid, hUids⟩ := update_spec c ex cU hup
    subst hsplit
    subst hcs1
    have hcmem : c ∈ pre ++ c :: post :=
      List.mem_append_right _ (List.mem_cons_self _ _)
    have hmap : (pre ++ cU :: post).map CommonException.atSig =
        (pre ++ c :: post).map CommonException.atSig := by
      rw [List.map_append, List.map_append, List.map_cons, List.map_cons, hUsig]
    refine ⟨?_, ?_, ?_⟩
    · rw [hmap]; exact hnodup
    · intro c1 hc1
      by_cases hcc : c1 = cU
      · subst hcc
        have hpredex : decide (List.lookup "stacktrace" ex = some c1.atSig) = true := by
          rw [hlook, hUsig, hsig]; simp
        constructor
        · rw [hUcnt, (hcnt c hcmem).1, List.filter_append, List.length_append,
            List.filter_cons, if_pos hpredex, hUsig]
          simp
        · intro v
          rw [hUids, setAdd_mem, (hcnt c hcmem).2 v]
          constructor
          · rintro (⟨ex0, hex0, h1, h2⟩ | hv)
            · exact ⟨ex0, List.mem_append_left _ hex0, by rw [hUsig]; exact h1, h2⟩
            · subst hv
              exact ⟨ex, List.mem_append_right _ (List.mem_singleton.mpr rfl),
                by rw [hUsig, hsig]; exact hlook, hid⟩
          · rintro ⟨ex0, hex0, h1, h2⟩
            rcases List.mem_append.mp hex0 with hex0 | hex0
            · exact Or.inl ⟨ex0, hex0, by rw [hUsig] at h1; exact h1, h2⟩
            · rw [List.mem_singleton.mp hex0] at h2
              rw [hid] at h2
              exact Or.inr (Option.some.inj h2).symm
      · have hc1mem : c1 ∈ pre ++ c :: post := by
          rcases List.mem_append.mp hc1 with hh | hh
          · exact List.mem_append_left _ hh
          · rcases List.mem_cons.mp hh with rfl | hh
            · exact absurd rfl hcc
            · exact List.mem_append_right _ (List.mem_cons_of_mem _ hh)
        have hcs : c1.atSig ≠ s := by
          rcases List.mem_append.mp hc1 with hh | hh
          · exact hpre c1 hh
          · rcases List.mem_cons.mp hh with rfl | hh
            · exact absurd rfl hcc
            · intro hcs1
              rw [List.map_append, List.map_cons, List.nodup_append] at hnodup
              have hn2 := hnodup.2.1
              rw [List.nodup_cons] at hn2
              exact hn2.1 (List.mem_map.mpr ⟨c1, hh, by rw [hcs1, ← hsig]⟩)
        have hpred : decide (List.lookup "stacktrace" ex = some c1.atSig) = false := by
          simp only [decide_eq_false_iff_not]
          rw [hlook]
          intro hcontra
          exact hcs (Option.some.inj hcontra).symm
        constructor
        · rw [List.filter_append, (hcnt c1 hc1mem).1]
          simp [List.filter_cons, hpred]
        · intro v
          rw [(hcnt c1 hc1mem).2 v]
          constructor
          · rintro ⟨ex0, hex0, h1, h2⟩
            exact ⟨ex0, List.mem_append_left _ hex0, h1, h2⟩
          · rintro ⟨ex0, hex0, h1, h2⟩
            rcases List.mem_append.mp hex0 with hex0 | hex0
            · exact ⟨ex0, hex0, h1, h2⟩
            · rw [List.mem_singleton.mp hex0] at h1
              rw [hlook] at h1
              exact absurd (Option.some.inj h1).symm hcs
    · intro ex0 hex0
      rcases List.mem_append.mp hex0 with hex0 | hex0
      · obtain ⟨c1, hc1, hcs⟩ := hcov ex0 hex0
        by_cases hcc : c1 = c
        · subst hcc
          exact ⟨cU, List.mem_append_right _ (List.mem_cons_self _ _),
            by rw [hUsig]; exact hcs⟩
        · rcases List.mem_append.mp hc1 with hh | hh
          · exact ⟨c1, List.mem_append_left _ hh, hcs⟩
          · rcases List.mem_cons.mp hh with rfl | hh
            · exact absurd rfl hcc
            · exact ⟨c1, List.mem_append_right _ (List.mem_cons_of_mem _ hh), hcs⟩
      · rw [List.mem_singleton.mp hex0]
        exact ⟨cU, List.mem_append_right _ (List.mem_cons_self _ _),
          by rw [hUsig, hsig]; exact hlook⟩

/-- Folding a stream of records through `addToCommons` preserves the
aggregation invariant. -/
theorem aggregate_fold (exs : List Bindings) :
    ∀ (processed : List Bindings) (cs cs1 : List CommonException),
      AggInv processed cs → List.foldlM addToCommons cs exs = .ok cs1 →
      AggInv (processed ++ exs) cs1 := by
  induction exs with
  | nil =>
    intro processed cs cs1 hinv h
    rw [List.foldlM_nil] at h
    injection h with h
    rw [List.append_nil, ← h]
    exact hinv
  | cons ex rest ih =>
    intro processed cs cs1 hinv h
    rw [List.foldlM_cons] at h
    cases ha : addToCommons cs ex with
    | error e =>
      rw [ha] at h
      exact Except.noConfusion h
    | ok cs' =>
      rw [ha] at h
      have hinv' := addToCommons_inv processed cs cs' ex hinv ha
      have hres := ih (processed ++ [ex]) cs' cs1 hinv' h
      rw [List.append_assoc] at hres
      exact hres

/-- C7: aggregation groups by exact stack signature — the finished groups
have pairwise distinct signatures (so records with equal signatures merge
into a single group); each group's occurrence count equals the number of
records with its signature; each group's id set is exactly the union of the
ids of those records; and every record's signature (including one not seen
before, which creates a fresh group of count 1 by `addToCommons`) has a
group. -/
theorem c7_aggregation (exs : List Bindings) (commons : List CommonException)
    (h : aggregateExceptions exs = .ok commons) :
    (commons.map CommonException.atSig).Nodup ∧
    (∀ c ∈ commons,
      c.counts = (exs.filter
        (fun ex => decide (List.lookup "stacktrace" ex = some c.atSig))).length ∧
      (∀ v, v ∈ c.ids ↔ ∃ ex ∈ exs,
        List.lookup "stacktrace" ex = some c.atSig ∧ List.lookup "id" ex = some v)) ∧
    (∀ ex ∈ exs, ∃ c ∈ commons, List.lookup "stacktrace" ex = some c.atSig) := by
  have hbase : AggInv [] [] := ⟨List.nodup_nil, by simp, by simp⟩
  have hres := aggregate_fold exs [] [] commons hbase h
  rw [List.nil_append] at hres
  exact hres

/-- C7 witness: two records with signature `sigA` and one with `sigB`
aggregate to `c7Commons`; the `sigA` group has count 2 and contains `id2`,
via the theorem. -/
theorem c7_witness :
    aggregateExceptions c7Exs = .ok c7Commons ∧
    (c7Commons.map CommonException.atSig).Nodup ∧
    c7CommonA.counts = (c7Exs.filter (fun ex =>
      decide (List.lookup "stacktrace" ex = some c7CommonA.atSig))).length ∧
    some "id2" ∈ c7CommonA.ids :=
  have h := c7_aggregation c7Exs c7Commons rfl
  ⟨rfl, h.1, (h.2.1 c7CommonA (by decide)).1,
    ((h.2.1 c7CommonA (by decide)).2 (some "id2")).mpr
      ⟨c7Ex2, by decide, by decide, by decide⟩⟩

/-- Reflexivity of the datetime order. -/
theorem timeLe_refl (a : TimeVal) : timeLe a a := by
  cases a with
  | nd => rfl
  | date y m d => simp [timeLe, timeLeB]

/-- Transitivity of the datetime order. -/
theorem timeLe_trans (a b c : TimeVal) (h1 : timeLe a b) (h2 : timeLe b c) :
    timeLe a c := by
  cases a with
  | nd => exact rfl
  | date y1 m1 d1 =>
    cases b with
    | nd => exact absurd h1 (by unfold timeLe timeLeB; simp)
    | date y2 m2 d2 =>
      cases c with
      | nd => exact absurd h2 (by unfold timeLe timeLeB; simp)
      | date y3 m3 d3 =>
        unfold timeLe timeLeB at h1 h2 ⊢
        simp only [Bool.or_eq_true, Bool.and_eq_true, decide_eq_true_eq] at h1 h2 ⊢
        omega

/-- The head of a sorted list is below every member. -/
theorem sorted_head_le (a : TimeVal) (l : List TimeVal)
    (hs : List.Sorted timeLe (a :: l)) : ∀ x ∈ a :: l, timeLe a x := by
  intro x hx
  rcases List.mem_cons.mp hx with rfl | hx
  · exact timeLe_refl x
  · exact List.rel_of_sorted_cons hs x hx

/-- The defaulted last element of a nonempty list is a member. -/
theorem mem_getLastD (l : List TimeVal) :
    ∀ d : TimeVal, l ≠ [] → l.getLastD d ∈ l := by
  induction l with
  | nil => intro d h; exact absurd rfl h
  | cons a t ih =>
    intro d _
    cases t with
    | nil => exact List.mem_singleton.mpr rfl
    | cons b t2 =>
      exact List.mem_cons_of_mem a (ih a (by simp))

/-- Every member of a sorted list is below its last element. -/
theorem sorted_le_getLastD (l : List TimeVal) :
    ∀ d : TimeVal, List.Sorted timeLe l → l ≠ [] →
      ∀ x ∈ l, timeLe x (l.getLastD d) := by
  induction l with
  | nil => intro d _ hne; exact absurd rfl hne
  | cons a t ih =>
    intro d hs _ x hx
    cases t with
    | nil =>
      rw [List.mem_singleton.mp hx]
      exact timeLe_refl _
    | cons b t2 =>
      have hlast : (a :: b :: t2).getLastD d = (b :: t2).getLastD a := rfl
      rw [hlast]
      rcases List.mem_cons.mp hx with rfl | hx
      · exact timeLe_trans x b _ (List.rel_of_sorted_cons hs b (by simp))
          (ih x hs.of_cons (by simp) b (by simp))
      · exact ih a hs.of_cons (by simp) x hx

/-- C8: duration rendering — with at least two collected valid (non-`\"ND\"`)
times, the result renders the earliest and the latest as
`MM/DD/YY-MM/DD/YY`; with exactly one valid time it renders that time alone
(as Python prints the returned `datetime`); with none it renders `\"ND\"`. -/
theorem c8_duration (times : List TimeVal) (hnd : times.Nodup) :
    (2 ≤ (times.filter (fun t => t ≠ TimeVal.nd)).length →
      ∃ e l, e ∈ times.filter (fun t => t ≠ TimeVal.nd) ∧
        l ∈ times.filter (fun t => t ≠ TimeVal.nd) ∧
        (∀ t ∈ times.filter (fun t => t ≠ TimeVal.nd), timeLe e t ∧ timeLe t l) ∧
        CommonException.duration times = fmtMDY e ++ "-" ++ fmtMDY l) ∧
    (∀ t0, times.filter (fun t => t ≠ TimeVal.nd) = [t0] →
      CommonException.duration times = pyDatetimeStr t0) ∧
    ((∀ t ∈ times, t = TimeVal.nd) → CommonException.duration times = "ND") := by
  have hperm := List.perm_insertionSort timeLe (times.filter (fun t => t ≠ TimeVal.nd))
  have hsort := List.sorted_insertionSort timeLe (times.filter (fun t => t ≠ TimeVal.nd))
  refine ⟨?_, ?_, ?_⟩
  · intro hlen
    have hxlen : 2 ≤ (List.insertionSort timeLe
        (times.filter (fun t => t ≠ TimeVal.nd))).length := by
      rw [hperm.length_eq]
      exact hlen
    cases hx : List.insertionSort timeLe (times.filter (fun t => t ≠ TimeVal.nd)) with
    | nil => rw [hx] at hxlen; simp at hxlen
    | cons a t1 =>
      cases t1 with
      | nil => rw [hx] at hxlen; simp at hxlen
      | cons b t2 =>
        rw [hx] at hperm hsort
        refine ⟨a, (a :: b :: t2).getLastD TimeVal.nd, ?_, ?_, ?_, ?_⟩
        · exact hperm.subset (List.mem_cons_self _ _)
        · exact hperm.subset (mem_getLastD _ TimeVal.nd (by simp))
        · intro t' ht'
          have hmem : t' ∈ a :: b :: t2 := hperm.mem_iff.mpr ht'
          exact ⟨sorted_head_le a (b :: t2) hsort t' hmem,
            sorted_le_getLastD (a :: b :: t2) TimeVal.nd hsort (by simp) t' hmem⟩
        · unfold CommonException.duration
          rw [hx]
          rw [if_pos (by simp)]
          rfl
  · intro t0 hval
    unfold CommonException.duration
    rw [hval]
    rfl
  · intro hall
    have hfil : times.filter (fun t => t ≠ TimeVal.nd) = [] := by
      rw [List.filter_eq_nil_iff]
      intro t ht
      rw [hall t ht]
      simp
    unfold CommonException.duration
    rw [hfil]
    rfl

/-- C8 witness: the set of 2010/08/31 and 2010/09/02 renders as
`\"08/31/10-09/02/10\"`; single-date and all-ND cases via the theorem. -/
theorem c8_witness :
    ([TimeVal.date 2010 8 31, TimeVal.date 2010 9 2] : List TimeVal).Nodup ∧
    CommonException.duration [TimeVal.date 2010 8 31, TimeVal.date 2010 9 2] =
      "08/31/10-09/02/10" ∧
    CommonException.duration [TimeVal.date 2010 8 31] =
      pyDatetimeStr (TimeVal.date 2010 8 31) ∧
    CommonException.duration [TimeVal.nd] = "ND" :=
  have h2 := (c8_duration [TimeVal.date 2010 8 31] (by decide)).2.1
    (TimeVal.date 2010 8 31) (by decide)
  have h3 := (c8_duration [TimeVal.nd] (by decide)).2.2 (by decide)
  ⟨by decide, by decide, h2, h3⟩

end RunReports
